import Mathlib

/-!
# A shallow embedding of the flydoc parsing core (flydocparse.c, flydoc.c)

Text is modelled line-by-line: a `String` is one line of the input without its
trailing newline, and a file, comment header or section span is a `List String`.
Positions (`const char *` cursors in C) become list suffixes together with a
`skip : Nat` counter that mirrors the C code's cursor jumps (past an example's
code block, past a section, ...) while keeping every function structurally
recursive, hence kernel-evaluable.

The flylibc string/markdown helpers (`FlyStr...`, `FlyMd2Html...`, `FlyList...`)
are external collaborators of this repository; they are modelled here as the
line-oriented functions their names, comments and call sites document.
Every `FlyDoc...` function is translated from `src/src/flydocparse.c`,
`src/src/flydoc.c` and `src/src/flydocprint.c`.
-/

namespace FlyDoc

/-- Model of C `isspace` restricted to characters that can occur inside a line
(space and tab); the newline that terminates a line is represented by the end
of the line string. -/
def chWhite (c : Char) : Bool := c == ' ' || c == '\t'

/-- Is a character a C-identifier continuation character (flylibc CName)? -/
def chCName (c : Char) : Bool := c.isAlpha || c.isDigit || c == '_'

/-- Is a character a valid first character of a C identifier? -/
def chCNameStart (c : Char) : Bool := c.isAlpha || c == '_'

/-- Model of `FlyStrLineIsBlank`: the rest of the line is only whitespace. -/
def strBlank (s : String) : Bool := s.data.all chWhite

/-- Model of `FlyStrSkipWhite` within one line. -/
def skipWhiteStr (s : String) : String := ⟨s.data.dropWhile chWhite⟩

/-- The whitespace-delimited token starting at the current position
(the length such a token would have under `FlyStrArgLen`). -/
def tokOf (s : String) : String := ⟨s.data.takeWhile (fun c => !chWhite c)⟩

/-- Model of `FlyStrArgNext` within one line: skip the current argument and
the whitespace after it, yielding the rest of the line (possibly empty). -/
def argNext (s : String) : String :=
  ⟨(s.data.dropWhile (fun c => !chWhite c)).dropWhile chWhite⟩

/-- Remove trailing whitespace of a one-line string
(model of `FlyStrBlankRemove` applied to a single-line buffer). -/
def trimR (s : String) : String := ⟨(s.data.reverse.dropWhile chWhite).reverse⟩

/-- Case-insensitive equality, model of `strcasecmp(..) == 0`. -/
def lowerEq (a b : String) : Bool :=
  a.data.map Char.toLower == b.data.map Char.toLower

/-- Case-insensitive three-way comparison on char lists
(model of `strcasecmp`, used by the sorted-insert callbacks). -/
def ciCmp : List Char → List Char → Ordering
  | [], [] => Ordering.eq
  | [], _ :: _ => Ordering.lt
  | _ :: _, [] => Ordering.gt
  | a :: as, b :: bs =>
    let a' := a.toLower
    let b' := b.toLower
    if a'.val < b'.val then Ordering.lt
    else if b'.val < a'.val then Ordering.gt
    else ciCmp as bs

/-- Case-sensitive three-way comparison on char lists (model of `strcmp`). -/
def csCmp : List Char → List Char → Ordering
  | [], [] => Ordering.eq
  | [], _ :: _ => Ordering.lt
  | _ :: _, [] => Ordering.gt
  | a :: as, b :: bs =>
    if a.val < b.val then Ordering.lt
    else if b.val < a.val then Ordering.gt
    else csCmp as bs

/-- Model of `FlyStrCNameLen`/`FlyDocCNameAlloc`: the leading C identifier of
the string, or `none` when the string does not start with one. -/
def cNameOf (s : String) : Option String :=
  match s.data with
  | [] => none
  | c :: _ => if chCNameStart c then some ⟨s.data.takeWhile chCName⟩ else none

/-- Model of `FlyStrPathNameOnly`: the file name after the last `/`. -/
def pathNameOnly (s : String) : String :=
  ⟨(s.data.reverse.takeWhile (fun c => !(c == '/'))).reverse⟩

/-- Model of `FlyStrPathExt` followed by truncation in `FlyDocDupCheck`:
drop a trailing extension (everything from the last dot on), when present. -/
def stripExtStr (s : String) : String :=
  if s.data.contains '.' then
    ⟨((s.data.reverse.dropWhile (fun c => !(c == '.'))).drop 1).reverse⟩
  else s

/-- The keyword vocabulary of `flyDocKeyword_t` (flydoc.h). -/
inductive Kw where
  | kClass | kColor | kDefgroup | kExample | kFn | kFont | kInclass | kIngroup
  | kLogo | kMainpage | kParam | kReturn | kReturns | kVersion | kUnknown
deriving DecidableEq, Repr

/-- The keyword table `aszKeywords` of `FlyDocIsKeyword`, in C array order. -/
def kwList : List (Kw × String) :=
  [(Kw.kClass, "@class"), (Kw.kColor, "@color"), (Kw.kDefgroup, "@defgroup"),
   (Kw.kExample, "@example"), (Kw.kFn, "@fn"), (Kw.kFont, "@font"),
   (Kw.kInclass, "@inclass"), (Kw.kIngroup, "@ingroup"), (Kw.kLogo, "@logo"),
   (Kw.kMainpage, "@mainpage"), (Kw.kParam, "@param"), (Kw.kReturn, "@return"),
   (Kw.kReturns, "@returns"), (Kw.kVersion, "@version")]

/-- `strncmp(szLine, w, len) == 0 && isspace(szLine[len])`: the keyword is a
prefix of the line and is followed by whitespace, where the end of the line
stands for the newline character of the original text. -/
def kwAt (cs : List Char) (w : String) : Bool :=
  w.data.isPrefixOf cs &&
    (match cs.drop w.data.length with
     | [] => true
     | c :: _ => chWhite c)

/-- First matching entry of the keyword table, else the pseudo keyword
`FLYDOC_KEYWORD_UNKNOWN`. -/
def kwFind : List (Kw × String) → List Char → Kw
  | [], _ => Kw.kUnknown
  | (k, w) :: rest, cs => if kwAt cs w then k else kwFind rest cs

/-- Model of `FlyDocIsKeyword`: a line starting (column 0) with `@` is a
keyword line; the result carries the keyword and the argument text after it
(`FlyStrArgNext` of the line). -/
def isKeyword (l : String) : Option (Kw × String) :=
  match l.data with
  | '@' :: _ => some (kwFind kwList l.data, argNext l)
  | _ => none

/-- Model of `FlyDocIsSection`. -/
def isSectionKw (k : Kw) : Bool :=
  k == Kw.kClass || k == Kw.kDefgroup || k == Kw.kFn || k == Kw.kMainpage

/-- Model of `FlyDocIsKeywordProto`. -/
def isProtoKw (k : Kw) : Bool :=
  k == Kw.kParam || k == Kw.kReturn || k == Kw.kReturns || k == Kw.kUnknown

/-- Does a line open a section (`@class`, `@defgroup`, `@fn`, `@mainpage`)? -/
def isSectionLine (l : String) : Bool :=
  match isKeyword l with
  | some (k, _) => isSectionKw k
  | none => false

/-- Is a line a prototype-fragment keyword line (kept in the prototype)? -/
def isProtoLine (l : String) : Bool :=
  match isKeyword l with
  | some (k, _) => isProtoKw k
  | none => false

/-- Model of the external markdown library: a fenced code-block delimiter. -/
def isFence (l : String) : Bool := "```".data.isPrefixOf l.data

/-- Model of the external markdown library: a four-space indented code line. -/
def isIndentedCode (l : String) : Bool :=
  "    ".data.isPrefixOf l.data && !strBlank l

/-- Model of `FlyMd2HtmlIsCodeBlk`: does a code block start at this line? -/
def isCodeBlkStart (l : String) : Bool := isFence l || isIndentedCode l

/-- Lines consumed by a fenced block after its opening fence
(up to and including the closing fence, or the rest of the text). -/
def fenceClose (rest : List String) : Nat :=
  match rest.findIdx? isFence with
  | some k => k + 1
  | none => rest.length

/-- Lines consumed by an indented code block after its first line. -/
def indentedLen (rest : List String) : Nat :=
  (rest.takeWhile (fun l => isIndentedCode l || strBlank l)).length

/-- Model of `FlyMd2HtmlCodeBlkEnd` as a line count: the number of lines the
code block starting at the head occupies, `0` when no code block starts here. -/
def codeBlkConsume : List String → Nat
  | [] => 0
  | l :: rest =>
    if isFence l then 1 + fenceClose rest
    else if isIndentedCode l then 1 + indentedLen rest
    else 0

/-- Model of `FlyStrLineSkipBlank` as a line count. -/
def blankPrefix (ls : List String) : Nat := (ls.takeWhile strBlank).length

/-- Model of the content scan of `FlyDocParseExample` on the lines after the
`@example` line: skip blank lines, then skip a code block; the first component
is the number of lines consumed, the second is whether the content was empty
(the cursor did not move past the skipped blanks: `szLine == szExampleEnd`). -/
def exampleAfter (rest : List String) : Nat × Bool :=
  let j := blankPrefix rest
  let c := codeBlkConsume (rest.drop j)
  (j + c, c == 0)

/-- Model of the title extraction of `FlyDocParseExample`:
`FlyStrArgNext(FlyStrSkipWhite(szLine))`, rejected when blank. -/
def exampleTitle (l : String) : Option String :=
  let t := argNext (skipWhiteStr l)
  if strBlank t then none else some t

/-- Model of `FlyMd2HtmlIsHeading` for the markdown file parser:
one to six `#` characters followed by a space. -/
def isHeading (l : String) : Bool :=
  let h := l.data.takeWhile (fun c => c == '#')
  decide (1 ≤ h.length) && decide (h.length ≤ 6) &&
    (match l.data.drop h.length with
     | c :: _ => c == ' '
     | [] => false)

/-- Model of `FlyMd2HtmlHeadingText`: the heading text after the hashes. -/
def headingText (l : String) : String :=
  ⟨(l.data.dropWhile (fun c => c == '#')).dropWhile chWhite⟩

/-- Scan to the character just after the `](` of a markdown image/link
(model of part of `FlyMdAltLink`). -/
def afterAlt : List Char → Option (List Char)
  | [] => none
  | ']' :: '(' :: r => some r
  | _ :: r => afterAlt r

/-- Split a parenthesized tail at the closing `)`:
`(inside, after the parenthesis)`. -/
def splitParen : List Char → Option (List Char × List Char)
  | [] => none
  | ')' :: r => some ([], r)
  | c :: r => (splitParen r).map (fun p => (c :: p.1, p.2))

/-- Model of `FlyMd2HtmlIsImage`/`FlyMdAltLink`: parse `![alt](link ...)`,
returning the link (its first whitespace-delimited token, a title may follow)
and the characters after the closing parenthesis. -/
def imgParse (cs : List Char) : Option (String × List Char) :=
  match cs with
  | '!' :: '[' :: r =>
    match afterAlt r with
    | some inParen =>
      match splitParen inParen with
      | some (inside, after) => some (⟨inside.takeWhile (fun c => !chWhite c)⟩, after)
      | none => none
    | none => none
  | _ => none

/-- The text of the image reference itself, `FlyStrAllocN(pszArg, pszAfter - pszArg)`
in `FlyDocParseLogo`. -/
def imgText (s : String) : String :=
  match imgParse s.data with
  | some (_, after) => ⟨s.data.take (s.data.length - after.length)⟩
  | none => s

/-- An example record (`flyDocExample_t`): only the display title is kept. -/
structure Example where
  title : String
deriving DecidableEq, Repr

/-- Model of `FlyDocExampleNew`: prefix the title for display and strip
trailing blanks. -/
def exampleNew (t : String) : Example := ⟨trimR ⟨"Example: ".data ++ t.data⟩⟩

/-- The shared titled-entity shape `flyDocSection_t`. Prose text is a list of
lines; `none` models a NULL `szText`. -/
structure Sec where
  title : String
  subtitle : Option String := none
  text : Option (List String) := none
  barColor : Option String := none
  titleColor : Option String := none
  headingColor : Option String := none
  fontBody : Option String := none
  fontHeadings : Option String := none
  logo : Option String := none
  version : Option String := none
  examples : List Example := []
deriving DecidableEq, Repr

/-- A function record (`flyDocFunc_t`). The prototype block is kept as the
prototype text followed by the `@param`/`@return`/unknown lines of the section
(the C code additionally pads each line with two spaces for rendering). -/
structure Func where
  name : String
  brief : Option String := none
  prototype : List String := []
  text : Option (List String) := none
deriving DecidableEq, Repr

/-- A module or class (`flyDocModule_t`). -/
structure Module where
  sec : Sec
  funcs : List Func := []
deriving DecidableEq, Repr

/-- Model of `FlyDocModNew`: a fresh module with only a title (a stub). -/
def modNew (t : String) : Module := {sec := {title := t}}

/-- A markdown document (`flyDocMarkdown_t`): its section, the ordered list of
interior headings (`pHdrList`) and the file path. -/
structure MdDoc where
  sec : Sec
  headings : List String := []
  path : String := ""
deriving DecidableEq, Repr

/-- An input image file (`flyDocFile_t`). -/
structure ImgFile where
  path : String
  referenced : Bool := false
deriving DecidableEq, Repr

/-- The warning events of flydocprint.c, by kind, with the detail string
(`szExtra`) where one is passed. -/
inductive Warn where
  | noModule
  | duplicate (detail : Option String)
  | noFunction
  | badDocStr
  | synErr
  | emptyContent
  | noImage (link : String)
  | noObjects
deriving DecidableEq, Repr

/-- The document state `flyDoc_t` (the fields the parsing core reads or
writes; file-system and output fields are out of scope). `curMod` models the
`pCurMod` pointer as (is-class?, exact title) since a module is identified
within its list by its exact title. Warnings are kept as an ordered event list;
`nWarnings` is its length. -/
structure Doc where
  mainPage : Option Sec := none
  modList : List Module := []
  classList : List Module := []
  mdList : List MdDoc := []
  imageList : List String := []
  imgFileList : List ImgFile := []
  curMod : Option (Bool × String) := none
  warns : List Warn := []
  fSort : Bool := false
  nDocComments : Nat := 0
deriving DecidableEq, Repr

/-- The initial document state (`FlyDocInit` zeroes the structure). -/
def docInit : Doc := {}

/-- Model of `FlyDocPrintWarning`/`FlyDocPrintWarningEx`: record the event and
increment the counter. -/
def warn (d : Doc) (w : Warn) : Doc := {d with warns := d.warns ++ [w]}

/-- Model of `FlyDocModInList`: walk the list, first module with this exact
title (`strcmp`). -/
def lookupMod : List Module → String → Option Module
  | [], _ => none
  | m :: rest, t => if m.sec.title == t then some m else lookupMod rest t

/-- Number of modules of the list carrying this exact title. -/
def countTitled : List Module → String → Nat
  | [], _ => 0
  | m :: rest, t => (if m.sec.title == t then 1 else 0) + countTitled rest t

/-- Replace the first module with the given exact title (the C code mutates
the found module through its pointer). -/
def modMap : List Module → String → (Module → Module) → List Module
  | [], _, _ => []
  | m :: rest, t, f => if m.sec.title == t then f m :: rest else m :: modMap rest t f

/-- Model of `FlyListAddSorted` with `FlyDocModListCmp` (case-insensitive
title order): insert before the first strictly greater element. -/
def modInsertSorted : List Module → Module → List Module
  | [], m => [m]
  | x :: xs, m =>
    if ciCmp x.sec.title.data m.sec.title.data == Ordering.gt then m :: x :: xs
    else x :: modInsertSorted xs m

/-- Model of `FlyDocModListAdd`. -/
def listAddMod (l : List Module) (m : Module) (fSort : Bool) : List Module :=
  if fSort then modInsertSorted l m else l ++ [m]

/-- Model of `FlyListAddSorted` with `FlyDocFuncListCmp`. -/
def funcInsertSorted : List Func → Func → List Func
  | [], f => [f]
  | x :: xs, f =>
    if ciCmp x.name.data f.name.data == Ordering.gt then f :: x :: xs
    else x :: funcInsertSorted xs f

/-- Model of `FlyDocFuncListAdd`. -/
def listAddFunc (l : List Func) (f : Func) (fSort : Bool) : List Func :=
  if fSort then funcInsertSorted l f else l ++ [f]

/-- Model of `FlyListAddSorted` with `FlyDocMarkdownCmp` (case-sensitive
`strcmp` on titles). -/
def mdInsertSorted : List MdDoc → MdDoc → List MdDoc
  | [], m => [m]
  | x :: xs, m =>
    if csCmp x.sec.title.data m.sec.title.data == Ordering.gt then m :: x :: xs
    else x :: mdInsertSorted xs m

/-- The module or class `curMod` refers to. -/
def findModRef (d : Doc) (r : Bool × String) : Option Module :=
  lookupMod (if r.1 then d.classList else d.modList) r.2

/-- Apply an update to the module `r` refers to, in the proper list. -/
def docModMap (d : Doc) (r : Bool × String) (f : Module → Module) : Doc :=
  if r.1 then {d with classList := modMap d.classList r.2 f}
  else {d with modList := modMap d.modList r.2 f}

/-- Model of `FlyDocImageFileFind`: find the input image file whose base name
equals the link and mark it referenced; `none` when absent. -/
def imageFileFindMark : List ImgFile → String → Option (List ImgFile)
  | [], _ => none
  | f :: rest, link =>
    if pathNameOnly f.path == link then some ({f with referenced := true} :: rest)
    else (imageFileFindMark rest link).map (fun l => f :: l)

/-- Model of `FlyDocParseImage`: for a local link (no path separator) mark the
matching input image file or warn `no image`; always append the link to the
run's image-reference list. -/
def imageAdd (d : Doc) (link : String) : Doc :=
  let d1 :=
    if link.data.contains '/' then d
    else
      match imageFileFindMark d.imgFileList link with
      | some fl => {d with imgFileList := fl}
      | none => warn d (Warn.noImage link)
  {d1 with imageList := d1.imageList ++ [link]}

/-- Image references found in one line, at most eight probes per line as in
`MdParseTextForImages` (fuel-bounded search for `!`). -/
def lineImagesGo : Nat → List Char → List String
  | 0, _ => []
  | fuel + 1, cs =>
    match cs.dropWhile (fun c => !(c == '!')) with
    | [] => []
    | bang :: r =>
      match imgParse (bang :: r) with
      | some (link, after) => link :: lineImagesGo fuel after
      | none => lineImagesGo fuel r

/-- All image references of one line. -/
def lineImages (l : String) : List String := lineImagesGo 8 l.data

/-- Model of `MdParseTextForImages`: walk lines, skipping code-block interiors
and keyword lines, recording every image reference. The `skip` counter carries
the cursor jump over a code block. -/
def imagesWalkGo : Nat → Doc → List String → Doc
  | _, d, [] => d
  | skip + 1, d, _ :: rest => imagesWalkGo skip d rest
  | 0, d, l :: rest =>
    if isCodeBlkStart l then imagesWalkGo (codeBlkConsume (l :: rest) - 1) d rest
    else if (isKeyword l).isSome then imagesWalkGo 0 d rest
    else imagesWalkGo 0 ((lineImages l).foldl imageAdd d) rest

/-- Entry point of the image walk. -/
def imagesWalk (d : Doc) (ls : List String) : Doc := imagesWalkGo 0 d ls

/-- The token-assignment phase of `FlyDocParseColor`: up to three tokens (bar,
title, heading colors); the flag records whether an explicit heading color was
given in this call. -/
def parseColorTokens (arg : String) (s : Sec) : Sec × Bool :=
  if tokOf arg == "" then (s, false)
  else
    let s1 := {s with barColor := some (tokOf arg)}
    if tokOf (argNext arg) == "" then (s1, false)
    else
      let s2 := {s1 with titleColor := some (tokOf (argNext arg))}
      if tokOf (argNext (argNext arg)) == "" then (s2, false)
      else ({s2 with headingColor := some (tokOf (argNext (argNext arg)))}, true)

/-- Model of `FlyDocParseColor`: assign the tokens; when no explicit heading
color was given in this call and a bar color is set, derive the heading color
as `w3-text-` plus the bar color without its `w3-` prefix. -/
def parseColorSec (arg : String) (s : Sec) : Sec :=
  let st := parseColorTokens arg s
  match st.1.barColor, st.2 with
  | some bc, false => {st.1 with headingColor := some ⟨"w3-text-".data ++ bc.data.drop 3⟩}
  | _, _ => st.1

/-- Model of `FlyDocParseFont`: body font then heading font. -/
def parseFontSec (arg : String) (s : Sec) : Sec :=
  let t1 := tokOf arg
  if t1 == "" then s
  else
    let s1 := {s with fontBody := some t1}
    let t2 := tokOf (argNext arg)
    if t2 == "" then s1 else {s1 with fontHeadings := some t2}

/-- Section-side effect of `MdParseStyleKeyword`: `@color`, `@font`, `@logo`
(only when the argument is a well-formed image reference), `@version`;
all other keywords leave the section unchanged. -/
def mdStyleSec (k : Kw) (arg : String) (s : Sec) : Sec :=
  match k with
  | Kw.kColor => parseColorSec arg s
  | Kw.kFont => parseFontSec arg s
  | Kw.kLogo => if (imgParse arg.data).isSome then {s with logo := some (imgText arg)} else s
  | Kw.kVersion => {s with version := some arg}
  | _ => s

/-- Document-side effect of `MdParseStyleKeyword`: only `@logo` has one
(`FlyDocParseLogo` warns on a malformed image reference, otherwise records the
image through `FlyDocParseImage`). -/
def mdStyleFx (d : Doc) (k : Kw) (arg : String) : Doc :=
  match k with
  | Kw.kLogo =>
    match imgParse arg.data with
    | some (link, _) => imageAdd d link
    | none => warn d Warn.synErr
  | _ => d

/-- Section-side scan pass of `FlyDocParseText` (examples appended, style
keywords applied). `skip` carries the cursor jump past an example's content. -/
def scanSecGo : Nat → Sec → List String → Sec
  | _, s, [] => s
  | skip + 1, s, _ :: rest => scanSecGo skip s rest
  | 0, s, l :: rest =>
    match isKeyword l with
    | some (Kw.kExample, _) =>
      match exampleTitle l with
      | none => scanSecGo 0 s rest
      | some t =>
        scanSecGo (exampleAfter rest).1
          {s with examples := s.examples ++ [exampleNew t]} rest
    | some (k, arg) => scanSecGo 0 (mdStyleSec k arg s) rest
    | none => scanSecGo 0 s rest

/-- Document-side scan pass of `FlyDocParseText`: warnings of
`FlyDocParseExample` (`syntax error` on a blank title, `empty content` when no
code block follows) and the effects of `@logo` lines. -/
def scanFxGo : Nat → Doc → List String → Doc
  | _, d, [] => d
  | skip + 1, d, _ :: rest => scanFxGo skip d rest
  | 0, d, l :: rest =>
    match isKeyword l with
    | some (Kw.kExample, _) =>
      match exampleTitle l with
      | none => scanFxGo 0 (warn d Warn.synErr) rest
      | some _ =>
        let jc := exampleAfter rest
        scanFxGo jc.1 (if jc.2 then warn d Warn.emptyContent else d) rest
    | some (k, arg) => scanFxGo 0 (mdStyleFx d k arg) rest
    | none => scanFxGo 0 d rest

/-- Is a line kept by the materialize pass of `FlyDocParseText`? Keyword lines
are dropped except `@example` and unknown-keyword lines. -/
def keepInText (l : String) : Bool :=
  match isKeyword l with
  | none => true
  | some (k, _) => k == Kw.kExample || k == Kw.kUnknown

/-- Model of `FlyStrLineBlankRemove`: trim leading and trailing blank lines. -/
def dropBlankEnds (ls : List String) : List String :=
  ((ls.dropWhile strBlank).reverse.dropWhile strBlank).reverse

/-- Materialize pass of `FlyDocParseText`: keep the non-keyword (plus
`@example`/unknown) lines, trim blank ends; `none` models the NULL result for
an empty text. -/
def materialize (ls : List String) : Option (List String) :=
  let r := dropBlankEnds (ls.filter keepInText)
  if r.isEmpty then none else some r

/-- Document-side effects of a full `FlyDocParseText` call: the scan pass
followed by the image walk over the materialized text (skipped when the text
is empty, matching the NULL check). -/
def parseTextFx (d : Doc) (ls : List String) : Doc :=
  let d1 := scanFxGo 0 d ls
  match materialize ls with
  | none => d1
  | some t => imagesWalk d1 t

/-- Model of `FlyDocGetNameDescription` on the pattern
`@keyword Name Description...`: the name token and the description (rest of
the line, possibly empty). -/
def getNameDescription (l : String) : Option (String × String) :=
  let p := skipWhiteStr l
  match p.data with
  | '@' :: _ =>
    let q := argNext p
    let tok := q.data.takeWhile (fun c => !chWhite c)
    if tok.isEmpty then none else some (⟨tok⟩, argNext q)
  | _ => none

/-- Model of `FlyDocParseInGroup`: resolve `@ingroup`/`@inclass Name`;
warn `syntax error` on an invalid identifier, create a stub when the name is
unknown, and make the resolved entity the current module. -/
def parseInGroupLine (d : Doc) (l : String) : Doc :=
  match isKeyword l with
  | some (k, arg) =>
    match cNameOf arg with
    | none => warn d Warn.synErr
    | some nm =>
      let isCls := k == Kw.kInclass
      let lst := if isCls then d.classList else d.modList
      match lookupMod lst nm with
      | some _ => {d with curMod := some (isCls, nm)}
      | none =>
        if isCls then
          {d with classList := listAddMod d.classList (modNew nm) d.fSort,
                  curMod := some (isCls, nm)}
        else
          {d with modList := listAddMod d.modList (modNew nm) d.fSort,
                  curMod := some (isCls, nm)}
  | none => d

/-- The collision predicate of `FlyDocDupCheck`: the candidate title, with a
trailing extension stripped, compared case-insensitively against every module,
class and (extension-stripped) markdown-document title, plus the reserved
literal `index` when a main page exists or more than one page would be
emitted. -/
def dupCheckIsDup (d : Doc) (title : String) : Bool :=
  let t := stripExtStr title
  d.modList.any (fun m => lowerEq t m.sec.title) ||
  d.classList.any (fun m => lowerEq t m.sec.title) ||
  d.mdList.any (fun md => lowerEq t (stripExtStr md.sec.title)) ||
  (lowerEq t "index" &&
    (d.mainPage.isSome ||
      decide (1 < d.modList.length + d.classList.length + d.mdList.length)))

/-- Model of `FlyDocDupCheck`: advisory only — on collision it records a
`duplicate` warning and changes nothing else. With a source position
(`hasPos`, the module path) the warning carries the title as given; on the
positionless markdown path the C code prints the extension-stripped copy. -/
def dupCheck (d : Doc) (title : String) (hasPos : Bool) : Doc :=
  if dupCheckIsDup d title then
    warn d (Warn.duplicate (some (if hasPos then title else stripExtStr title)))
  else d

/-- How `FlyDocParseModule` completes a module record: set its subtitle when
`setSub` carries one, run the text scan over the section body, and store the
materialized body as the module's text. -/
def finishedModule (m : Module) (setSub : Option String) (body : List String) : Module :=
  let s0 := match setSub with
    | some sub => {m.sec with subtitle := some sub}
    | none => m.sec
  let s1 := scanSecGo 0 s0 body
  {m with sec := {s1 with text := materialize body}}

/-- The unconditional tail of `FlyDocParseModule` (from `pDoc->pCurMod = pMod`
on): make the module current, complete it in place, and apply the
document-side text effects. The C code runs this tail even on the duplicate
path, mutating the pre-existing module. -/
def finishModule (d : Doc) (fClass : Bool) (cname : String)
    (setSub : Option String) (body : List String) : Doc :=
  let d1 := {d with curMod := some (fClass, cname)}
  let d2 := docModMap d1 (fClass, cname) (fun m => finishedModule m setSub body)
  parseTextFx d2 body

/-- Model of `FlyDocParseModule` on a `@class`/`@defgroup` section. On the
two `syntax error` paths the C code goes on to dereference an uninitialized
module pointer (undefined behavior); the model stops at the warning. On the
duplicate path the C code continues with the existing module (see
`finishModule`), which is what the model does too. -/
def parseModule (d : Doc) (fClass : Bool) (ls : List String) : Doc :=
  match ls with
  | [] => d
  | l0 :: body =>
    match getNameDescription l0 with
    | none => warn d Warn.synErr
    | some (nameTok, desc) =>
      match cNameOf nameTok with
      | none => warn d Warn.synErr
      | some cname =>
        let lst := if fClass then d.classList else d.modList
        match lookupMod lst cname with
        | some m =>
          if m.sec.subtitle.isSome || m.sec.text.isSome then
            finishModule (warn d (Warn.duplicate (some cname))) fClass cname none body
          else
            finishModule d fClass cname (some desc) body
        | none =>
          let d1 := dupCheck d cname true
          let d2 :=
            if fClass then {d1 with classList := listAddMod d1.classList (modNew cname) d1.fSort}
            else {d1 with modList := listAddMod d1.modList (modNew cname) d1.fSort}
          finishModule d2 fClass cname (some desc) body

/-- Is the line after the current one blank (`FlyStrLineIsBlank` of
`FlyStrLineNext`)? On the last line of the `@mainpage` span the C code peeks
one line past the span: the terminating NUL of the header (a blank line) when
the section runs to the header's end, otherwise the following section's
keyword line (never blank); `endBlank` says which of the two follows. -/
def nextLineBlank (endBlank : Bool) (rest : List String) : Bool :=
  match rest with
  | [] => endBlank
  | n :: _ => strBlank n

/-- The subtitle scan of `FlyDocParseMainPage` over the lines after the title
line: style keywords are applied along the way; the first non-blank
non-keyword line becomes the subtitle when the line after it is blank (or the
section ends there). Returns the updated document and section, the subtitle,
and — when a subtitle was taken — the lines after the subtitle line where the
text area starts (`none` leaves the text area at the whole body). -/
def mpScanGo (endBlank : Bool) :
    Doc → Sec → List String → Doc × Sec × Option String × Option (List String)
  | d, s, [] => (d, s, none, none)
  | d, s, l :: rest =>
    match isKeyword l with
    | some (k, arg) => mpScanGo endBlank (mdStyleFx d k arg) (mdStyleSec k arg s) rest
    | none =>
      if strBlank l then mpScanGo endBlank d s rest
      else if nextLineBlank endBlank rest then (d, s, some l, some rest)
      else (d, s, none, none)

/-- Model of `FlyDocParseMainPage`: a second `@mainpage` warns `duplicate` and
leaves everything else untouched; otherwise the title is the rest of the
opening line, the subtitle scan runs, and the remaining lines are parsed as the
text area. `endBlank` tells the subtitle scan what follows the span's last
line (see `nextLineBlank`). -/
def parseMainPage (d : Doc) (ls : List String) (endBlank : Bool) : Doc :=
  match d.mainPage with
  | some _ => warn d (Warn.duplicate (some "mainpage"))
  | none =>
    match ls with
    | [] => d
    | l0 :: body =>
      let title := argNext (skipWhiteStr l0)
      let r := mpScanGo endBlank d {title := title} body
      let d1 := r.1
      let sub := r.2.2.1
      let textLs := match r.2.2.2 with
        | some after => after
        | none => body
      let s2 := {r.2.1 with subtitle := sub}
      if textLs.isEmpty then {d1 with mainPage := some s2}
      else
        let s3 := scanSecGo 0 s2 textLs
        let d2 := parseTextFx d1 textLs
        {d2 with mainPage := some {s3 with text := materialize textLs}}

/-- Context the function parser gets from the raw comment header handle
(`flyStrHdr_t`). Modelled from the spec: the flylibc header object is not part
of this repository; what `FlyDocParseFunction` asks of it is whether the
comment is a doc-string-style one (prototype before the comment) and the
adjacent candidate prototype text (for doc strings the line preceding the
comment, otherwise the first non-blank line after it). -/
structure HdrCtx where
  pydoc : Bool := false
  protoCandidate : String := ""
deriving DecidableEq, Repr

/-- Model of `FlyStrFnProtoLen`'s name extraction: the C identifier
immediately before the first `(` of the candidate prototype text;
`none` when there is none (no prototype). -/
def protoName (s : String) : Option String :=
  if s.data.contains '(' then
    let pre := (s.data.takeWhile (fun c => !(c == '('))).reverse.dropWhile chWhite
    let nm := (pre.takeWhile chCName).reverse
    match nm with
    | [] => none
    | c :: _ => if chCNameStart c then some ⟨nm⟩ else none
  else none

/-- The pre-scan of `FlyDocParseFunction`: process `@inclass`/`@ingroup`
lines (they may redirect the current module) and locate the brief — the first
non-blank, non-keyword line — as its index and text. -/
def prescanGo : Doc → Option (Nat × String) → Nat → List String → Doc × Option (Nat × String)
  | d, acc, _, [] => (d, acc)
  | d, acc, i, l :: rest =>
    match isKeyword l with
    | some (k, _) =>
      if k == Kw.kInclass || k == Kw.kIngroup then
        prescanGo (parseInGroupLine d l) acc (i + 1) rest
      else prescanGo d acc (i + 1) rest
    | none =>
      if acc.isNone && !strBlank l then prescanGo d (some (i, l)) (i + 1) rest
      else prescanGo d acc (i + 1) rest

/-- Model of `FlyDocParseFunction`. `secLs` is the section span (to the
section end), `restLs` the span from the section start to the end of the whole
header: the C code bounds the pre-scan by the section end but the prototype
copy loop and the text area only by the end of the header. Fails with
`no module` when no current module exists after the pre-scan, and with
`bad doc string`/`no function` when no callable name can be extracted. -/
def parseFunction (d : Doc) (secLs restLs : List String) (ctx : HdrCtx)
    (protoArg : Option String) : Doc :=
  let pr := prescanGo d none 0 secLs
  let d1 := pr.1
  match d1.curMod with
  | none => warn d1 Warn.noModule
  | some r =>
    let proto := match protoArg with
      | some p => p
      | none => ctx.protoCandidate
    match protoName proto with
    | none => warn d1 (if ctx.pydoc then Warn.badDocStr else Warn.noFunction)
    | some fname =>
      let tail := match pr.2 with
        | some ib => restLs.drop (ib.1 + 1)
        | none => restLs
      let f : Func :=
        {name := fname, brief := pr.2.map (fun ib => ib.2),
         prototype := proto :: tail.filter isProtoLine,
         text := materialize tail}
      let d2 := docModMap d1 r (fun m =>
        {m with funcs := listAddFunc m.funcs f d1.fSort,
                sec := scanSecGo 0 m.sec tail})
      parseTextFx d2 tail

/-- Model of `FlyDocSectionEnd` as a line count over the lines after the
section-opening line: the next section-opening keyword line or the end. -/
def sectionLen (rest : List String) : Nat :=
  match rest.findIdx? isSectionLine with
  | some k => k
  | none => rest.length

/-- The header walk of `FlyDocParseHdr`. `hdr` is the whole header (needed for
the bare-comment fallback), `ctx` the raw-header context (`none` when the
header came from a markdown file, in which case `@fn` sections and the
bare-comment fallback are skipped), `found` the `fFoundText` flag, and `skip`
the cursor jump to a dispatched section's end. -/
def hdrLoopGo (hdr : List String) (ctx : Option HdrCtx) :
    Nat → Doc → Bool → List String → Doc
  | skip + 1, d, found, _ :: rest => hdrLoopGo hdr ctx skip d found rest
  | _, d, found, [] =>
    match ctx with
    | some c => if found then parseFunction d hdr hdr c none else d
    | none => d
  | 0, d, found, l :: rest =>
    match isKeyword l with
    | some (k, _) =>
      if k == Kw.kIngroup || k == Kw.kInclass then
        hdrLoopGo hdr ctx 0 (parseInGroupLine d l) found rest
      else if isSectionKw k then
        let n := sectionLen rest
        let secLs := l :: rest.take n
        let d' :=
          match k with
          | Kw.kClass => parseModule d true secLs
          | Kw.kDefgroup => parseModule d false secLs
          | Kw.kFn =>
            match ctx with
            | some c => parseFunction d secLs (l :: rest) c (some (argNext l))
            | none => d
          | Kw.kMainpage => parseMainPage d secLs (rest.drop n).isEmpty
          | _ => d
        hdrLoopGo hdr ctx n d' false rest
      else hdrLoopGo hdr ctx 0 d (found || !strBlank l) rest
    | none => hdrLoopGo hdr ctx 0 d (found || !strBlank l) rest

/-- Model of `FlyDocParseHdr`: count the doc comment, walk the header; when no
section-opening keyword was found but non-blank content exists (and the header
came from source), parse the whole header as an implicit function comment. -/
def parseHdr (d : Doc) (hdr : List String) (ctx : Option HdrCtx) : Doc :=
  hdrLoopGo hdr ctx 0 {d with nDocComments := d.nDocComments + 1} false hdr

/-- The line scan of `FlyDocParseMarkdownFile`, returning the document, the
markdown section, the heading outline and the `fGotHdr` flag. On an `@example`
line with a blank title `FlyDocParseExample` returns NULL, which ends the scan
(the external line-step is modelled as leaving the NULL cursor in place; the C
code also reads an uninitialized example pointer there, modelled as appending
nothing). After a successful example the C code moves to the example's end and
then unconditionally to the next line, so one extra line is skipped. -/
def mdLoopGo : Nat → Doc → Sec → List String → Bool → List String →
    Doc × Sec × List String × Bool
  | skip + 1, d, s, hs, g, _ :: rest => mdLoopGo skip d s hs g rest
  | _, d, s, hs, g, [] => (d, s, hs, g)
  | 0, d, s, hs, g, l :: rest =>
    match isKeyword l with
    | some (Kw.kExample, _) =>
      match exampleTitle l with
      | none => (warn d Warn.synErr, s, hs, g)
      | some t =>
        let jc := exampleAfter rest
        mdLoopGo (jc.1 + 1) (if jc.2 then warn d Warn.emptyContent else d)
          {s with examples := s.examples ++ [exampleNew t]} hs g rest
    | some (k, arg) => mdLoopGo 0 (mdStyleFx d k arg) (mdStyleSec k arg s) hs g rest
    | none =>
      if isCodeBlkStart l then
        mdLoopGo (codeBlkConsume (l :: rest) - 1) d s hs g rest
      else if isHeading l then
        let h := headingText l
        mdLoopGo 0 d (if g then s else {s with subtitle := some h}) (hs ++ [h]) true rest
      else mdLoopGo 0 d s hs g rest

/-- Model of `FlyDocParseMarkdownFile`: a file whose first line is a
section-opening keyword is delegated whole to the header parser (with no raw
header, so `@fn` and the bare-comment fallback are off) and no markdown
document is created. Otherwise a markdown document titled with the file's base
name is duplicate-checked, filled by the line scan (its text is the whole file
verbatim), inserted into the document list, and the whole file is scanned for
images. -/
def parseMarkdownFile (d : Doc) (path : String) (file : List String) : Doc :=
  if (match file.head? with | some l => isSectionLine l | none => false) then
    parseHdr d file none
  else
    let title := pathNameOnly path
    let d1 := dupCheck d title false
    let r := mdLoopGo 0 d1 {title := title, text := some file} [] false file
    let md : MdDoc := {sec := r.2.1, headings := r.2.2.1, path := path}
    let d2 := r.1
    let d3 :=
      if d2.fSort then {d2 with mdList := mdInsertSorted d2.mdList md}
      else {d2 with mdList := d2.mdList ++ [md]}
    imagesWalk d3 file

/-- Model of `FlyDocExampleCountAll`. -/
def exampleCountAll (d : Doc) : Nat :=
  (d.modList.map (fun m => m.sec.examples.length)).sum +
  (d.classList.map (fun m => m.sec.examples.length)).sum +
  (d.mdList.map (fun md => md.sec.examples.length)).sum +
  (match d.mainPage with
   | some s => s.examples.length
   | none => 0)

/-- Model of `FlyDocStatsUpdate` followed by `FlyDocNumObjects`: the main page
plus modules, functions, classes, methods, examples and documents. -/
def numObjects (d : Doc) : Nat :=
  (if d.mainPage.isSome then 1 else 0) +
  d.modList.length + (d.modList.map (fun m => m.funcs.length)).sum +
  d.classList.length + (d.classList.map (fun m => m.funcs.length)).sum +
  exampleCountAll d + d.mdList.length

/-- `return flyDoc.nWarnings ? 1 : 0` at the end of `main`. -/
def exitCode (nWarnings : Nat) : Nat := if nWarnings == 0 then 0 else 1

/-- The tail of `main` (flydoc.c) after all inputs are parsed: when the total
object count is zero, warn `no objects` and create nothing; otherwise, unless
`-n` was given, run the build, which may emit warnings of its own
(`buildWarns`) and succeed or not (`buildOk`, which only gates image copying
and the statistics printout). Returns the final document state, whether output
files were created, and the process exit status. -/
def mainFinish (d : Doc) (fNoBuild : Bool) (buildWarns : List Warn)
    (buildOk : Bool) : Doc × Bool × Nat :=
  if numObjects d == 0 then
    let d1 := warn d Warn.noObjects
    (d1, false, exitCode d1.warns.length)
  else if !fNoBuild then
    let d1 := {d with warns := d.warns ++ buildWarns}
    let _ := buildOk
    (d1, true, exitCode d1.warns.length)
  else (d, false, exitCode d.warns.length)

/-- Is a line an `@ingroup`/`@inclass` grouping line? -/
def isGroupLine (l : String) : Bool :=
  match isKeyword l with
  | some (k, _) => k == Kw.kIngroup || k == Kw.kInclass
  | none => false

/-- The cumulative document effect of a span's grouping lines, in order. Both
the header walk of `FlyDocParseHdr` and the pre-scan of `FlyDocParseFunction`
feed each `@ingroup`/`@inclass` line through `FlyDocParseInGroup` and have no
other document effect over a section-keyword-free span. -/
def groupWalk (d : Doc) (ls : List String) : Doc :=
  ls.foldl (fun dd l => if isGroupLine l then parseInGroupLine dd l else dd) d

/-- The brief selection of `FlyDocParseFunction`'s pre-scan: the first line
that is neither a keyword line nor blank, with its index. -/
def firstBriefIdx : List String → Option (Nat × String)
  | [] => none
  | l :: rest =>
    if (isKeyword l).isSome || strBlank l then
      (firstBriefIdx rest).map (fun p => (p.1 + 1, p.2))
    else some (0, l)

/-! ### Basic facts about lines and keywords -/

theorem isKeyword_of_blank {l : String} (h : strBlank l = true) : isKeyword l = none := by
  unfold isKeyword
  split
  · next heq =>
    exfalso
    unfold strBlank at h
    rw [heq, List.all_cons] at h
    have hc : chWhite '@' = false := by decide
    rw [hc] at h
    simp at h
  · rfl

theorem not_blank_of_isKeyword {l : String} {p : Kw × String}
    (h : isKeyword l = some p) : strBlank l = false := by
  by_contra hb
  rw [isKeyword_of_blank (by simpa using Bool.of_not_eq_false hb)] at h
  exact Option.noConfusion h

theorem isProtoLine_of_none {l : String} (h : isKeyword l = none) :
    isProtoLine l = false := by
  unfold isProtoLine
  rw [h]

theorem isSectionLine_of_none {l : String} (h : isKeyword l = none) :
    isSectionLine l = false := by
  unfold isSectionLine
  rw [h]

/-! ### The effect functions touch only warnings, images and image files -/

/-- Two document states agreeing on everything except the warning list, the
image-reference list and the input-image-file list. -/
def entitiesEq (a b : Doc) : Prop :=
  a.mainPage = b.mainPage ∧ a.modList = b.modList ∧ a.classList = b.classList ∧
  a.mdList = b.mdList ∧ a.curMod = b.curMod ∧ a.fSort = b.fSort ∧
  a.nDocComments = b.nDocComments

theorem entitiesEq_refl (a : Doc) : entitiesEq a a :=
  ⟨rfl, rfl, rfl, rfl, rfl, rfl, rfl⟩

theorem entitiesEq_trans {a b c : Doc} (h1 : entitiesEq a b) (h2 : entitiesEq b c) :
    entitiesEq a c := by
  obtain ⟨a1, a2, a3, a4, a5, a6, a7⟩ := h1
  obtain ⟨b1, b2, b3, b4, b5, b6, b7⟩ := h2
  exact ⟨a1.trans b1, a2.trans b2, a3.trans b3, a4.trans b4, a5.trans b5,
    a6.trans b6, a7.trans b7⟩

theorem warn_entities (d : Doc) (w : Warn) : entitiesEq (warn d w) d := by
  unfold warn entitiesEq
  exact ⟨rfl, rfl, rfl, rfl, rfl, rfl, rfl⟩

theorem dupCheck_entities (d : Doc) (t : String) (hp : Bool) :
    entitiesEq (dupCheck d t hp) d := by
  unfold dupCheck
  split
  · exact warn_entities ..
  · exact entitiesEq_refl _

theorem imageAdd_entities (d : Doc) (link : String) : entitiesEq (imageAdd d link) d := by
  unfold imageAdd
  split
  · exact ⟨rfl, rfl, rfl, rfl, rfl, rfl, rfl⟩
  · split
    · exact ⟨rfl, rfl, rfl, rfl, rfl, rfl, rfl⟩
    · exact ⟨rfl, rfl, rfl, rfl, rfl, rfl, rfl⟩

theorem foldl_imageAdd_entities (links : List String) (d : Doc) :
    entitiesEq (links.foldl imageAdd d) d := by
  induction links generalizing d with
  | nil => exact entitiesEq_refl _
  | cons x xs ih =>
    exact entitiesEq_trans (ih (imageAdd d x)) (imageAdd_entities d x)

theorem imagesWalkGo_entities (ls : List String) (skip : Nat) (d : Doc) :
    entitiesEq (imagesWalkGo skip d ls) d := by
  induction ls generalizing skip d with
  | nil => cases skip <;> exact entitiesEq_refl _
  | cons l rest ih =>
    cases skip with
    | succ skip => exact ih skip d
    | zero =>
      unfold imagesWalkGo
      split
      · exact ih _ d
      · split
        · exact ih 0 d
        · exact entitiesEq_trans (ih 0 _) (foldl_imageAdd_entities _ d)

theorem mdStyleFx_entities (d : Doc) (k : Kw) (arg : String) :
    entitiesEq (mdStyleFx d k arg) d := by
  unfold mdStyleFx
  split
  · split
    · exact imageAdd_entities ..
    · exact warn_entities ..
  · exact entitiesEq_refl _

theorem scanFxGo_entities (ls : List String) (skip : Nat) (d : Doc) :
    entitiesEq (scanFxGo skip d ls) d := by
  induction ls generalizing skip d with
  | nil => cases skip <;> exact entitiesEq_refl _
  | cons l rest ih =>
    cases skip with
    | succ skip => exact ih skip d
    | zero =>
      unfold scanFxGo
      split
      · split
        · exact entitiesEq_trans (ih 0 _) (warn_entities ..)
        · dsimp only
          split
          · exact entitiesEq_trans (ih _ _) (warn_entities ..)
          · exact ih _ _
      · exact entitiesEq_trans (ih 0 _) (mdStyleFx_entities ..)
      · exact ih 0 d

theorem parseTextFx_entities (d : Doc) (ls : List String) :
    entitiesEq (parseTextFx d ls) d := by
  unfold parseTextFx
  split
  · exact scanFxGo_entities ..
  · exact entitiesEq_trans (imagesWalkGo_entities ..) (scanFxGo_entities ..)

/-! ### Module-list lemmas -/

theorem lookupMod_insertSorted {l : List Module} {t : String} {m : Module}
    (h : lookupMod l t = none) (hm : m.sec.title = t) :
    lookupMod (modInsertSorted l m) t = some m := by
  induction l with
  | nil => simp [modInsertSorted, lookupMod, hm]
  | cons x xs ih =>
    unfold lookupMod at h
    split at h
    · exact Option.noConfusion h
    · next hx =>
      unfold modInsertSorted
      split
      · unfold lookupMod
        rw [if_pos (by simp [hm])]
      · unfold lookupMod
        rw [if_neg hx]
        exact ih h

theorem lookupMod_listAddMod {l : List Module} {t : String} {m : Module} {fs : Bool}
    (h : lookupMod l t = none) (hm : m.sec.title = t) :
    lookupMod (listAddMod l m fs) t = some m := by
  unfold listAddMod
  split
  · exact lookupMod_insertSorted h hm
  · induction l with
    | nil => simp [lookupMod, hm]
    | cons x xs ih =>
      unfold lookupMod at h
      split at h
      · exact Option.noConfusion h
      · next hx =>
        rw [List.cons_append]
        simp only [lookupMod]
        rw [if_neg hx]
        exact ih h

theorem countTitled_nil_of_lookup_none {l : List Module} {t : String}
    (h : lookupMod l t = none) : countTitled l t = 0 := by
  induction l with
  | nil => rfl
  | cons x xs ih =>
    unfold lookupMod at h
    split at h
    · exact Option.noConfusion h
    · next hx =>
      unfold countTitled
      rw [if_neg hx, ih h]

theorem countTitled_insertSorted (l : List Module) (m : Module) (t : String) :
    countTitled (modInsertSorted l m) t =
      countTitled l t + (if m.sec.title == t then 1 else 0) := by
  induction l with
  | nil => simp [modInsertSorted, countTitled]
  | cons x xs ih =>
    unfold modInsertSorted
    split
    · simp only [countTitled]
      omega
    · simp only [countTitled]
      rw [ih]
      omega

theorem countTitled_listAddMod (l : List Module) (m : Module) (t : String) (fs : Bool) :
    countTitled (listAddMod l m fs) t =
      countTitled l t + (if m.sec.title == t then 1 else 0) := by
  unfold listAddMod
  split
  · exact countTitled_insertSorted l m t
  · induction l with
    | nil => simp [countTitled]
    | cons x xs ih =>
      rw [List.cons_append]
      unfold countTitled
      rw [ih]
      omega

theorem lookupMod_modMap {l : List Module} {t : String} {f : Module → Module}
    (hf : ∀ m, (f m).sec.title = m.sec.title) :
    lookupMod (modMap l t f) t = (lookupMod l t).map f := by
  induction l with
  | nil => rfl
  | cons x xs ih =>
    unfold modMap
    split
    · next hx =>
      unfold lookupMod
      rw [if_pos (by rw [hf x]; exact hx), if_pos hx]
      rfl
    · next hx =>
      unfold lookupMod
      rw [if_neg hx, if_neg hx]
      exact ih

theorem countTitled_modMap {l : List Module} {t t' : String} {f : Module → Module}
    (hf : ∀ m, (f m).sec.title = m.sec.title) :
    countTitled (modMap l t f) t' = countTitled l t' := by
  induction l with
  | nil => rfl
  | cons x xs ih =>
    unfold modMap
    split
    · unfold countTitled
      rw [hf x]
    · unfold countTitled
      rw [ih]

/-! ### The scan pass never touches a section's title -/

theorem parseColorTokens_title (arg : String) (s : Sec) :
    (parseColorTokens arg s).1.title = s.title := by
  unfold parseColorTokens
  repeat' split
  all_goals rfl

theorem parseColorSec_title (arg : String) (s : Sec) :
    (parseColorSec arg s).title = s.title := by
  unfold parseColorSec
  dsimp only
  split
  · exact parseColorTokens_title ..
  · exact parseColorTokens_title ..

theorem parseFontSec_title (arg : String) (s : Sec) :
    (parseFontSec arg s).title = s.title := by
  unfold parseFontSec
  dsimp only
  repeat' split
  all_goals rfl

theorem mdStyleSec_title (k : Kw) (arg : String) (s : Sec) :
    (mdStyleSec k arg s).title = s.title := by
  unfold mdStyleSec
  split
  · exact parseColorSec_title ..
  · exact parseFontSec_title ..
  · split <;> rfl
  · rfl
  · rfl

theorem scanSecGo_title (ls : List String) (skip : Nat) (s : Sec) :
    (scanSecGo skip s ls).title = s.title := by
  induction ls generalizing skip s with
  | nil => cases skip <;> rfl
  | cons l rest ih =>
    cases skip with
    | succ skip => exact ih skip s
    | zero =>
      unfold scanSecGo
      split
      · split
        · exact ih 0 s
        · exact ih _ _
      · rw [ih 0 _, mdStyleSec_title]
      · exact ih 0 s

/-- A span without keyword lines leaves the section untouched. -/
theorem scanSecGo_noKw {ls : List String} (s : Sec)
    (h : ∀ l ∈ ls, isKeyword l = none) : scanSecGo 0 s ls = s := by
  induction ls generalizing s with
  | nil => rfl
  | cons l rest ih =>
    unfold scanSecGo
    rw [h l (List.mem_cons_self l rest)]
    exact ih s (fun x hx => h x (List.mem_cons_of_mem l hx))

/-- A span without keyword lines leaves the document untouched. -/
theorem scanFxGo_noKw {ls : List String} (d : Doc)
    (h : ∀ l ∈ ls, isKeyword l = none) : scanFxGo 0 d ls = d := by
  induction ls generalizing d with
  | nil => rfl
  | cons l rest ih =>
    unfold scanFxGo
    rw [h l (List.mem_cons_self l rest)]
    exact ih d (fun x hx => h x (List.mem_cons_of_mem l hx))

/-! ### The header parser never creates a markdown document -/

theorem parseTextFx_mdList (d : Doc) (ls : List String) :
    (parseTextFx d ls).mdList = d.mdList :=
  (parseTextFx_entities d ls).2.2.2.1

theorem dupCheck_mdList (d : Doc) (t : String) (hp : Bool) :
    (dupCheck d t hp).mdList = d.mdList :=
  (dupCheck_entities d t hp).2.2.2.1

theorem parseInGroupLine_mdList (d : Doc) (l : String) :
    (parseInGroupLine d l).mdList = d.mdList := by
  unfold parseInGroupLine
  dsimp only
  repeat' split
  all_goals rfl

theorem finishModule_mdList (d : Doc) (fClass : Bool) (cname : String)
    (setSub : Option String) (body : List String) :
    (finishModule d fClass cname setSub body).mdList = d.mdList := by
  unfold finishModule
  dsimp only
  rw [parseTextFx_mdList]
  unfold docModMap
  split <;> rfl

theorem parseModule_mdList (d : Doc) (fClass : Bool) (ls : List String) :
    (parseModule d fClass ls).mdList = d.mdList := by
  unfold parseModule
  dsimp only
  repeat' split
  all_goals try rfl
  all_goals rw [finishModule_mdList]
  all_goals try rfl
  all_goals dsimp only
  all_goals rw [dupCheck_mdList]

theorem mdStyleFx_mdList (d : Doc) (k : Kw) (arg : String) :
    (mdStyleFx d k arg).mdList = d.mdList :=
  (mdStyleFx_entities d k arg).2.2.2.1

theorem mpScanGo_mdList (ls : List String) (eb : Bool) (d : Doc) (s : Sec) :
    (mpScanGo eb d s ls).1.mdList = d.mdList := by
  induction ls generalizing d s with
  | nil => rfl
  | cons l rest ih =>
    unfold mpScanGo
    split
    · rw [ih, mdStyleFx_mdList]
    · split
      · exact ih ..
      · split <;> rfl

theorem parseMainPage_mdList (d : Doc) (ls : List String) (eb : Bool) :
    (parseMainPage d ls eb).mdList = d.mdList := by
  unfold parseMainPage
  split
  · rfl
  · split
    · rfl
    · dsimp only
      split
      · exact mpScanGo_mdList ..
      · rw [parseTextFx_mdList]
        exact mpScanGo_mdList ..

theorem prescanGo_mdList (ls : List String) (d : Doc) (acc : Option (Nat × String))
    (i : Nat) : (prescanGo d acc i ls).1.mdList = d.mdList := by
  induction ls generalizing d acc i with
  | nil => rfl
  | cons l rest ih =>
    unfold prescanGo
    split
    · split
      · rw [ih, parseInGroupLine_mdList]
      · exact ih ..
    · split
      · exact ih ..
      · exact ih ..

theorem parseFunction_mdList (d : Doc) (secLs restLs : List String) (ctx : HdrCtx)
    (protoArg : Option String) :
    (parseFunction d secLs restLs ctx protoArg).mdList = d.mdList := by
  unfold parseFunction
  dsimp only
  split
  · rw [show (warn (prescanGo d none 0 secLs).1 Warn.noModule).mdList =
        (prescanGo d none 0 secLs).1.mdList from rfl]
    exact prescanGo_mdList ..
  · split
    · rw [show ∀ dd w, (warn dd w).mdList = dd.mdList from fun _ _ => rfl]
      exact prescanGo_mdList ..
    · rw [parseTextFx_mdList]
      unfold docModMap
      split
      · exact prescanGo_mdList ..
      · exact prescanGo_mdList ..

theorem hdrLoopGo_mdList (hdr : List String) (ctx : Option HdrCtx)
    (ls : List String) (skip : Nat) (d : Doc) (found : Bool) :
    (hdrLoopGo hdr ctx skip d found ls).mdList = d.mdList := by
  induction ls generalizing skip d found with
  | nil =>
    cases skip with
    | zero =>
      unfold hdrLoopGo
      split
      · split
        · exact parseFunction_mdList ..
        · rfl
      · rfl
    | succ skip =>
      unfold hdrLoopGo
      split
      · split
        · exact parseFunction_mdList ..
        · rfl
      · rfl
  | cons l rest ih =>
    cases skip with
    | succ skip => exact ih ..
    | zero =>
      unfold hdrLoopGo
      split
      · split
        · rw [ih, parseInGroupLine_mdList]
        · split
          · rw [ih]
            split
            · exact parseModule_mdList ..
            · exact parseModule_mdList ..
            · split
              · exact parseFunction_mdList ..
              · rfl
            · exact parseMainPage_mdList ..
            · rfl
          · exact ih ..
      · exact ih ..

theorem parseHdr_mdList (d : Doc) (hdr : List String) (ctx : Option HdrCtx) :
    (parseHdr d hdr ctx).mdList = d.mdList := by
  unfold parseHdr
  rw [hdrLoopGo_mdList]

/-! ### Header-walk support lemmas -/

theorem parseTextFx_modList (d : Doc) (ls : List String) :
    (parseTextFx d ls).modList = d.modList :=
  (parseTextFx_entities d ls).2.1

theorem parseTextFx_classList (d : Doc) (ls : List String) :
    (parseTextFx d ls).classList = d.classList :=
  (parseTextFx_entities d ls).2.2.1

theorem finishedModule_title (m : Module) (setSub : Option String)
    (body : List String) :
    (finishedModule m setSub body).sec.title = m.sec.title := by
  unfold finishedModule
  dsimp only
  rw [scanSecGo_title]
  cases setSub <;> rfl

theorem finishModule_modList (d : Doc) (cname : String) (setSub : Option String)
    (body : List String) :
    (finishModule d false cname setSub body).modList =
      modMap d.modList cname (fun m => finishedModule m setSub body) := by
  unfold finishModule
  dsimp only
  rw [parseTextFx_modList]
  rfl

/-- When the section keyword scan finds nothing, the section runs to the end. -/
theorem sectionLen_of_none {rest : List String}
    (h : ∀ l ∈ rest, isSectionLine l = false) : sectionLen rest = rest.length := by
  unfold sectionLen
  rw [List.findIdx?_eq_none_iff.mpr (by intro a ha; simp [h a ha])]

/-- Draining the cursor jump with the `fFoundText` flag down ends the walk. -/
theorem hdrLoopGo_drain {hdr ls : List String} {ctx : Option HdrCtx} {skip : Nat}
    (d : Doc) (h : ls.length ≤ skip) : hdrLoopGo hdr ctx skip d false ls = d := by
  induction ls generalizing skip d with
  | nil => cases skip <;> cases ctx <;> rfl
  | cons l rest ih =>
    cases skip with
    | zero => simp at h
    | succ skip => exact ih d (by simpa using h)

/-- `FlyDocParseInGroup` neither reads nor changes the doc-comment counter. -/
theorem parseInGroupLine_nDoc (dd : Doc) (x : Nat) (l : String) :
    parseInGroupLine {dd with nDocComments := x} l =
      {parseInGroupLine dd l with nDocComments := x} := by
  unfold parseInGroupLine
  dsimp only
  repeat' split
  all_goals rfl

theorem parseInGroupLine_fSort (dd : Doc) (l : String) :
    (parseInGroupLine dd l).fSort = dd.fSort := by
  unfold parseInGroupLine
  dsimp only
  repeat' split
  all_goals rfl

theorem groupWalk_cons (d : Doc) (l : String) (ls : List String) :
    groupWalk d (l :: ls) =
      groupWalk (if isGroupLine l then parseInGroupLine d l else d) ls := rfl

theorem groupWalk_nDoc (ls : List String) (dd : Doc) (x : Nat) :
    groupWalk {dd with nDocComments := x} ls =
      {groupWalk dd ls with nDocComments := x} := by
  induction ls generalizing dd with
  | nil => rfl
  | cons l rest ih =>
    rw [groupWalk_cons, groupWalk_cons]
    by_cases hg : isGroupLine l = true
    · rw [if_pos hg, if_pos hg, parseInGroupLine_nDoc]
      exact ih _
    · rw [if_neg hg, if_neg hg]
      exact ih _

theorem groupWalk_fSort (ls : List String) (dd : Doc) :
    (groupWalk dd ls).fSort = dd.fSort := by
  induction ls generalizing dd with
  | nil => rfl
  | cons l rest ih =>
    rw [groupWalk_cons, ih]
    by_cases hg : isGroupLine l = true
    · rw [if_pos hg, parseInGroupLine_fSort]
    · rw [if_neg hg]

/-- Over a header suffix free of section-opening keyword lines the walk
applies exactly the grouping lines to the document, accumulates `fFoundText`
over the non-blank non-grouping lines, and ends in the bare-comment
dispatch. -/
theorem hdrLoopGo_noSection {ls : List String} (hdr : List String) (c : HdrCtx)
    (d : Doc) (found : Bool) (h : ∀ l ∈ ls, isSectionLine l = false) :
    hdrLoopGo hdr (some c) 0 d found ls =
      (if found || ls.any (fun l => !isGroupLine l && !strBlank l) then
        parseFunction (groupWalk d ls) hdr hdr c none
       else groupWalk d ls) := by
  induction ls generalizing d found with
  | nil => cases found <;> simp [hdrLoopGo, groupWalk]
  | cons l rest ih =>
    have hrest : ∀ x ∈ rest, isSectionLine x = false :=
      fun x hx => h x (List.mem_cons_of_mem l hx)
    unfold hdrLoopGo
    cases hkw : isKeyword l with
    | some p =>
      obtain ⟨k, arg⟩ := p
      have hsk : isSectionKw k = false := by
        have hl := h l (List.mem_cons_self l rest)
        simp only [isSectionLine, hkw] at hl
        exact hl
      dsimp only
      rcases Bool.eq_false_or_eq_true (k == Kw.kIngroup || k == Kw.kInclass) with
        hk2 | hk2
      · have hgl : isGroupLine l = true := by
          simp only [isGroupLine, hkw]
          exact hk2
        rw [if_pos hk2]
        rw [ih (parseInGroupLine d l) found hrest]
        rw [groupWalk_cons, List.any_cons, hgl]
        rw [if_pos rfl]
        simp only [Bool.not_true, Bool.false_and, Bool.false_or]
      · have hgl : isGroupLine l = false := by
          simp only [isGroupLine, hkw]
          exact hk2
        rw [if_neg (show ¬((k == Kw.kIngroup || k == Kw.kInclass) = true) by
              rw [hk2]; exact Bool.false_ne_true)]
        rw [hsk]
        simp only [Bool.false_eq_true, if_false]
        rw [ih d (found || !strBlank l) hrest]
        rw [groupWalk_cons, List.any_cons, hgl]
        simp only [Bool.false_eq_true, if_false, Bool.not_false, Bool.true_and,
          Bool.or_assoc]
    | none =>
      have hgl : isGroupLine l = false := by
        simp only [isGroupLine, hkw]
      dsimp only
      rw [ih d (found || !strBlank l) hrest]
      rw [groupWalk_cons, List.any_cons, hgl]
      simp only [Bool.false_eq_true, if_false, Bool.not_false, Bool.true_and,
        Bool.or_assoc]

/-- First component of the pre-scan: its document effect is exactly the
grouping-line walk. -/
theorem prescanGo_fst (ls : List String) (d : Doc) (acc : Option (Nat × String))
    (i : Nat) : (prescanGo d acc i ls).1 = groupWalk d ls := by
  induction ls generalizing d acc i with
  | nil => rfl
  | cons l rest ih =>
    unfold prescanGo
    cases hkw : isKeyword l with
    | some p =>
      obtain ⟨k, arg⟩ := p
      dsimp only
      rw [groupWalk_cons]
      rcases Bool.eq_false_or_eq_true (k == Kw.kInclass || k == Kw.kIngroup) with
        hk2 | hk2
      · have hgl : isGroupLine l = true := by
          simp only [isGroupLine, hkw]
          rw [Bool.or_comm]
          exact hk2
        rw [if_pos hk2, hgl, if_pos rfl]
        exact ih ..
      · have hgl : isGroupLine l = false := by
          simp only [isGroupLine, hkw]
          rw [Bool.or_comm]
          exact hk2
        rw [if_neg (show ¬((k == Kw.kInclass || k == Kw.kIngroup) = true) by
              rw [hk2]; exact Bool.false_ne_true)]
        rw [hgl]
        simp only [Bool.false_eq_true, if_false]
        exact ih ..
    | none =>
      have hgl : isGroupLine l = false := by
        simp only [isGroupLine, hkw]
      dsimp only
      rw [groupWalk_cons, hgl]
      simp only [Bool.false_eq_true, if_false]
      split
      · exact ih ..
      · exact ih ..

/-- Second component of the pre-scan: the carried brief, or else the first
non-blank non-keyword line offset by the running index. -/
theorem prescanGo_snd (ls : List String) (d : Doc) (acc : Option (Nat × String))
    (i : Nat) :
    (prescanGo d acc i ls).2 =
      (match acc with
       | some x => some x
       | none => (firstBriefIdx ls).map (fun p => (i + p.1, p.2))) := by
  induction ls generalizing d acc i with
  | nil => cases acc <;> rfl
  | cons l rest ih =>
    unfold prescanGo
    cases hkw : isKeyword l with
    | some p =>
      obtain ⟨k, arg⟩ := p
      have hfb : firstBriefIdx (l :: rest) =
          (firstBriefIdx rest).map (fun p => (p.1 + 1, p.2)) := by
        simp [firstBriefIdx, hkw]
      dsimp only
      rw [hfb, apply_ite Prod.snd, ih, ih, ite_self]
      cases acc with
      | some x => rfl
      | none =>
        cases firstBriefIdx rest with
        | none => rfl
        | some q => simp; omega
    | none =>
      dsimp only
      cases acc with
      | some x =>
        rw [if_neg (by simp)]
        rw [ih]
      | none =>
        cases hb : strBlank l with
        | true =>
          have hfb : firstBriefIdx (l :: rest) =
              (firstBriefIdx rest).map (fun p => (p.1 + 1, p.2)) := by
            simp [firstBriefIdx, hkw, hb]
          rw [if_neg (by simp [hb])]
          rw [ih, hfb]
          cases firstBriefIdx rest with
          | none => rfl
          | some q => simp; omega
        | false =>
          have hfb : firstBriefIdx (l :: rest) = some (0, l) := by
            simp [firstBriefIdx, hkw, hb]
          rw [if_pos (by simp [hb])]
          rw [ih, hfb]
          simp

/-- A non-blank non-keyword (hence non-grouping) line exists whenever the
brief search succeeds. -/
theorem any_text_of_firstBriefIdx {ls : List String} {p : Nat × String}
    (h : firstBriefIdx ls = some p) :
    ls.any (fun l => !isGroupLine l && !strBlank l) = true := by
  induction ls generalizing p with
  | nil => exact Option.noConfusion h
  | cons l rest ih =>
    unfold firstBriefIdx at h
    rw [List.any_cons]
    split at h
    · cases hfr : firstBriefIdx rest with
      | none => rw [hfr] at h; exact Option.noConfusion h
      | some q => rw [ih hfr]; simp
    · next hc =>
      have hklnone : isKeyword l = none := by
        cases hkw : isKeyword l with
        | some q => exact absurd (by rw [hkw]; simp) hc
        | none => rfl
      have hnb : strBlank l = false := by
        by_contra hbb
        exact hc (by rw [Bool.of_not_eq_false hbb]; simp)
      have hgl : isGroupLine l = false := by
        simp only [isGroupLine, hklnone]
      simp [hgl, hnb]

/-! ### Evaluation lemmas for grouping and module sections named `Foo` -/

theorem dupCheck_modList (d : Doc) (t : String) (hp : Bool) :
    (dupCheck d t hp).modList = d.modList := (dupCheck_entities d t hp).2.1

theorem dupCheck_fSort (d : Doc) (t : String) (hp : Bool) :
    (dupCheck d t hp).fSort = d.fSort := (dupCheck_entities d t hp).2.2.2.2.2.1

theorem parseInGroup_foo (d : Doc) :
    parseInGroupLine d "@ingroup Foo" =
      match lookupMod d.modList "Foo" with
      | some _ => {d with curMod := some (false, "Foo")}
      | none => {d with modList := listAddMod d.modList (modNew "Foo") d.fSort,
                        curMod := some (false, "Foo")} := by
  rfl

theorem parseHdr_ingroup_foo (d : Doc) (ctx : Option HdrCtx) :
    parseHdr d ["@ingroup Foo"] ctx =
      parseInGroupLine {d with nDocComments := d.nDocComments + 1} "@ingroup Foo" := by
  cases ctx <;> rfl

theorem parseModule_foo (d : Doc) (body : List String) :
    parseModule d false ("@defgroup Foo Some text" :: body) =
      (match lookupMod d.modList "Foo" with
       | some m =>
         if m.sec.subtitle.isSome || m.sec.text.isSome then
           finishModule (warn d (Warn.duplicate (some "Foo"))) false "Foo" none body
         else finishModule d false "Foo" (some "Some text") body
       | none =>
         finishModule {dupCheck d "Foo" true with
           modList := listAddMod (dupCheck d "Foo" true).modList (modNew "Foo")
                        (dupCheck d "Foo" true).fSort}
           false "Foo" (some "Some text") body) := by
  rfl

theorem parseHdr_defgroup_foo (d : Doc) (ctx : Option HdrCtx) (body : List String)
    (hBody : ∀ l ∈ body, isSectionLine l = false) :
    parseHdr d ("@defgroup Foo Some text" :: body) ctx =
      parseModule {d with nDocComments := d.nDocComments + 1} false
        ("@defgroup Foo Some text" :: body) := by
  have step : parseHdr d ("@defgroup Foo Some text" :: body) ctx =
      hdrLoopGo ("@defgroup Foo Some text" :: body) ctx (sectionLen body)
        (parseModule {d with nDocComments := d.nDocComments + 1} false
          ("@defgroup Foo Some text" :: body.take (sectionLen body))) false body := by
    rfl
  rw [step, sectionLen_of_none hBody, List.take_length]
  exact hdrLoopGo_drain _ (le_refl _)

theorem stub_eval (d : Doc) (ctx : Option HdrCtx)
    (hNone : lookupMod d.modList "Foo" = none) :
    parseHdr d ["@ingroup Foo"] ctx =
      {d with nDocComments := d.nDocComments + 1,
              modList := listAddMod d.modList (modNew "Foo") d.fSort,
              curMod := some (false, "Foo")} := by
  rw [parseHdr_ingroup_foo, parseInGroup_foo]
  dsimp only
  rw [hNone]

theorem finishModule_lookup (d : Doc) (cname : String) (setSub : Option String)
    (body : List String) :
    lookupMod (finishModule d false cname setSub body).modList cname =
      (lookupMod d.modList cname).map (fun m => finishedModule m setSub body) := by
  rw [finishModule_modList]
  exact lookupMod_modMap (fun m => finishedModule_title m setSub body)

theorem finishModule_count (d : Doc) (cname t : String) (setSub : Option String)
    (body : List String) :
    countTitled (finishModule d false cname setSub body).modList t =
      countTitled d.modList t := by
  rw [finishModule_modList]
  exact countTitled_modMap (fun m => finishedModule_title m setSub body)

/-- C1: grouping resolution is a forward-reference-stable, order-independent,
idempotent operation. With no module titled `Foo` yet and a section body free
of section-opening keywords: (i) `@ingroup Foo` creates exactly one stub
module titled `Foo`; (ii) processing `@ingroup Foo` then
`@defgroup Foo Some text <body>` or the two headers in the reverse order
leaves, either way, exactly one module titled `Foo`, and the identical
completed module; (iii) a repeated `@ingroup Foo` changes the module list not
at all. -/
theorem claim_C1_grouping_order_independence (d : Doc) (body : List String)
    (ctx : Option HdrCtx)
    (hNone : lookupMod d.modList "Foo" = none)
    (hBody : ∀ l ∈ body, isSectionLine l = false) :
    (lookupMod (parseHdr d ["@ingroup Foo"] ctx).modList "Foo" = some (modNew "Foo")
      ∧ countTitled (parseHdr d ["@ingroup Foo"] ctx).modList "Foo" = 1)
    ∧ (lookupMod (parseHdr (parseHdr d ["@ingroup Foo"] ctx)
          ("@defgroup Foo Some text" :: body) ctx).modList "Foo" =
        some (finishedModule (modNew "Foo") (some "Some text") body)
      ∧ lookupMod (parseHdr (parseHdr d ("@defgroup Foo Some text" :: body) ctx)
          ["@ingroup Foo"] ctx).modList "Foo" =
        some (finishedModule (modNew "Foo") (some "Some text") body)
      ∧ countTitled (parseHdr (parseHdr d ["@ingroup Foo"] ctx)
          ("@defgroup Foo Some text" :: body) ctx).modList "Foo" = 1
      ∧ countTitled (parseHdr (parseHdr d ("@defgroup Foo Some text" :: body) ctx)
          ["@ingroup Foo"] ctx).modList "Foo" = 1)
    ∧ (parseHdr (parseHdr d ["@ingroup Foo"] ctx) ["@ingroup Foo"] ctx).modList
        = (parseHdr d ["@ingroup Foo"] ctx).modList := by
  have hstubAdd : lookupMod (listAddMod d.modList (modNew "Foo") d.fSort) "Foo" =
      some (modNew "Foo") := lookupMod_listAddMod hNone rfl
  have hcount0 : countTitled d.modList "Foo" = 0 := countTitled_nil_of_lookup_none hNone
  have hcountAdd : countTitled (listAddMod d.modList (modNew "Foo") d.fSort) "Foo" = 1 := by
    rw [countTitled_listAddMod, hcount0]
    rfl
  refine ⟨⟨?_, ?_⟩, ⟨?_, ?_, ?_, ?_⟩, ?_⟩
  · rw [stub_eval d ctx hNone]
    exact hstubAdd
  · rw [stub_eval d ctx hNone]
    exact hcountAdd
  · rw [stub_eval d ctx hNone]
    rw [parseHdr_defgroup_foo _ ctx body hBody, parseModule_foo]
    dsimp only
    rw [hstubAdd]
    dsimp only
    rw [show ((modNew "Foo").sec.subtitle.isSome || (modNew "Foo").sec.text.isSome) = false from rfl]
    rw [if_neg (by simp)]
    rw [finishModule_lookup]
    dsimp only
    rw [hstubAdd]
    rfl
  · rw [parseHdr_defgroup_foo _ ctx body hBody, parseModule_foo]
    dsimp only
    rw [hNone]
    rw [parseHdr_ingroup_foo, parseInGroup_foo]
    dsimp only
    have hfin : lookupMod (finishModule {dupCheck {d with nDocComments := d.nDocComments + 1} "Foo" true with
        modList := listAddMod (dupCheck {d with nDocComments := d.nDocComments + 1} "Foo" true).modList
          (modNew "Foo") (dupCheck {d with nDocComments := d.nDocComments + 1} "Foo" true).fSort}
        false "Foo" (some "Some text") body).modList "Foo" =
        some (finishedModule (modNew "Foo") (some "Some text") body) := by
      rw [finishModule_lookup]
      dsimp only
      rw [dupCheck_modList, dupCheck_fSort]
      dsimp only
      rw [hstubAdd]
      rfl
    rw [hfin]
    dsimp only
    exact hfin
  · rw [stub_eval d ctx hNone]
    rw [parseHdr_defgroup_foo _ ctx body hBody, parseModule_foo]
    dsimp only
    rw [hstubAdd]
    dsimp only
    rw [show ((modNew "Foo").sec.subtitle.isSome || (modNew "Foo").sec.text.isSome) = false from rfl]
    rw [if_neg (by simp)]
    rw [finishModule_count]
    dsimp only
    exact hcountAdd
  · rw [parseHdr_defgroup_foo _ ctx body hBody, parseModule_foo]
    dsimp only
    rw [hNone]
    rw [parseHdr_ingroup_foo, parseInGroup_foo]
    dsimp only
    have hfin : lookupMod (finishModule {dupCheck {d with nDocComments := d.nDocComments + 1} "Foo" true with
        modList := listAddMod (dupCheck {d with nDocComments := d.nDocComments + 1} "Foo" true).modList
          (modNew "Foo") (dupCheck {d with nDocComments := d.nDocComments + 1} "Foo" true).fSort}
        false "Foo" (some "Some text") body).modList "Foo" =
        some (finishedModule (modNew "Foo") (some "Some text") body) := by
      rw [finishModule_lookup]
      dsimp only
      rw [dupCheck_modList, dupCheck_fSort]
      dsimp only
      rw [hstubAdd]
      rfl
    rw [hfin]
    dsimp only
    rw [finishModule_count]
    dsimp only
    rw [dupCheck_modList, dupCheck_fSort]
    dsimp only
    exact hcountAdd
  · rw [stub_eval d ctx hNone]
    rw [parseHdr_ingroup_foo, parseInGroup_foo]
    dsimp only
    rw [hstubAdd]

/-- Witness for C1 at the empty run with body `["Hello."]`. -/
theorem claim_C1_grouping_order_independence_witness :
    (lookupMod docInit.modList "Foo" = none
      ∧ (∀ l ∈ ["Hello."], isSectionLine l = false))
    ∧ ((lookupMod (parseHdr docInit ["@ingroup Foo"] none).modList "Foo" = some (modNew "Foo")
      ∧ countTitled (parseHdr docInit ["@ingroup Foo"] none).modList "Foo" = 1)
    ∧ (lookupMod (parseHdr (parseHdr docInit ["@ingroup Foo"] none)
          ("@defgroup Foo Some text" :: ["Hello."]) none).modList "Foo" =
        some (finishedModule (modNew "Foo") (some "Some text") ["Hello."])
      ∧ lookupMod (parseHdr (parseHdr docInit ("@defgroup Foo Some text" :: ["Hello."]) none)
          ["@ingroup Foo"] none).modList "Foo" =
        some (finishedModule (modNew "Foo") (some "Some text") ["Hello."])
      ∧ countTitled (parseHdr (parseHdr docInit ["@ingroup Foo"] none)
          ("@defgroup Foo Some text" :: ["Hello."]) none).modList "Foo" = 1
      ∧ countTitled (parseHdr (parseHdr docInit ("@defgroup Foo Some text" :: ["Hello."]) none)
          ["@ingroup Foo"] none).modList "Foo" = 1)
    ∧ (parseHdr (parseHdr docInit ["@ingroup Foo"] none) ["@ingroup Foo"] none).modList
        = (parseHdr docInit ["@ingroup Foo"] none).modList) :=
  ⟨⟨by decide, by decide⟩,
    claim_C1_grouping_order_independence docInit ["Hello."] none (by decide) (by decide)⟩

theorem parseColorTokens_examples (arg : String) (s : Sec) :
    (parseColorTokens arg s).1.examples = s.examples := by
  unfold parseColorTokens
  repeat' split
  all_goals rfl

theorem parseColorSec_examples (arg : String) (s : Sec) :
    (parseColorSec arg s).examples = s.examples := by
  unfold parseColorSec
  dsimp only
  split
  · exact parseColorTokens_examples ..
  · exact parseColorTokens_examples ..

theorem parseFontSec_examples (arg : String) (s : Sec) :
    (parseFontSec arg s).examples = s.examples := by
  unfold parseFontSec
  dsimp only
  repeat' split
  all_goals rfl

theorem mdStyleSec_examples (k : Kw) (arg : String) (s : Sec) :
    (mdStyleSec k arg s).examples = s.examples := by
  unfold mdStyleSec
  split
  · exact parseColorSec_examples ..
  · exact parseFontSec_examples ..
  · split <;> rfl
  · rfl
  · rfl

/-- The section scan only ever appends to the example list. -/
theorem scanSecGo_examples_prefix (ls : List String) (skip : Nat) (s : Sec) :
    s.examples <+: (scanSecGo skip s ls).examples := by
  induction ls generalizing skip s with
  | nil => cases skip <;> exact List.prefix_refl _
  | cons l rest ih =>
    cases skip with
    | succ skip => exact ih skip s
    | zero =>
      unfold scanSecGo
      split
      · split
        · exact ih 0 s
        · rename_i t heq
          exact List.IsPrefix.trans
            (List.prefix_append s.examples [exampleNew t])
            (ih (exampleAfter rest).1 {s with examples := s.examples ++ [exampleNew t]})
      · refine List.IsPrefix.trans ?_ (ih 0 _)
        rw [mdStyleSec_examples]
      · exact ih 0 s

/-- C2, counterexample to the claim as stated: `@example Foo` immediately
followed by an indented (four-space) code block. No line gets skipped as
blank and no fenced code block follows the `@example` line, yet the text
parser emits no `empty content` warning at all, because the content test of
`FlyDocParseExample` (`FlyMd2HtmlCodeBlkEnd`) also accepts an indented code
block — the very format the warning text itself recommends. The Example
record is created either way. -/
theorem claim_C2_counterexample :
    isKeyword "@example Foo" = some (Kw.kExample, argNext "@example Foo")
    ∧ exampleTitle "@example Foo" = some "Foo"
    ∧ strBlank "    x := 1" = false
    ∧ isFence "    x := 1" = false
    ∧ (scanFxGo 0 docInit ["@example Foo", "    x := 1"]).warns = []
    ∧ (parseTextFx docInit ["@example Foo", "    x := 1"]).warns ≠ [Warn.emptyContent]
    ∧ scanSecGo 0 {title := "M"} ["@example Foo", "    x := 1"] =
        {title := "M", examples := [exampleNew "Foo"]} := by
  decide

/-- C2 (amended: a code block — fenced or indented — counts as content): an
`@example` line with a non-blank title after which, once blank lines are
skipped, no code block starts makes the text parser of `FlyDocParseText` emit
exactly one `empty content` warning and still append exactly one Example
record with the display-prefixed title to the enclosing section's example
list; the scan resumes after the skipped lines, and whatever it does there
only appends further examples, so the appended record survives in place. -/
theorem claim_C2_example_without_code_block (d : Doc) (s : Sec) (l t : String)
    (rest : List String)
    (hK : isKeyword l = some (Kw.kExample, argNext l))
    (hT : exampleTitle l = some t)
    (hNoBlk : (exampleAfter rest).2 = true) :
    scanSecGo 0 s (l :: rest) =
      scanSecGo (exampleAfter rest).1
        {s with examples := s.examples ++ [exampleNew t]} rest
    ∧ scanFxGo 0 d (l :: rest) =
      scanFxGo (exampleAfter rest).1 (warn d Warn.emptyContent) rest
    ∧ (s.examples ++ [exampleNew t]) <+: (scanSecGo 0 s (l :: rest)).examples := by
  have hsec : scanSecGo 0 s (l :: rest) =
      scanSecGo (exampleAfter rest).1
        {s with examples := s.examples ++ [exampleNew t]} rest := by
    conv_lhs => unfold scanSecGo
    rw [hK]
    dsimp only
    rw [hT]
  have hfx : scanFxGo 0 d (l :: rest) =
      scanFxGo (exampleAfter rest).1 (warn d Warn.emptyContent) rest := by
    conv_lhs => unfold scanFxGo
    rw [hK]
    dsimp only
    rw [hT]
    dsimp only
    rw [hNoBlk, if_pos rfl]
  refine ⟨hsec, hfx, ?_⟩
  rw [hsec]
  exact scanSecGo_examples_prefix rest (exampleAfter rest).1
    {s with examples := s.examples ++ [exampleNew t]}

/-- Witness for C2 at `@example Basic Use` followed by one blank line. -/
theorem claim_C2_example_without_code_block_witness :
    (isKeyword "@example Basic Use" = some (Kw.kExample, argNext "@example Basic Use")
      ∧ exampleTitle "@example Basic Use" = some "Basic Use"
      ∧ (exampleAfter [""]).2 = true)
    ∧ (scanSecGo 0 {title := "M"} ("@example Basic Use" :: [""]) =
        scanSecGo (exampleAfter [""]).1
          {({title := "M"} : Sec) with
            examples := ({title := "M"} : Sec).examples ++ [exampleNew "Basic Use"]} [""]
      ∧ scanFxGo 0 docInit ("@example Basic Use" :: [""]) =
          scanFxGo (exampleAfter [""]).1 (warn docInit Warn.emptyContent) [""]
      ∧ (({title := "M"} : Sec).examples ++ [exampleNew "Basic Use"]) <+:
          (scanSecGo 0 {title := "M"} ("@example Basic Use" :: [""])).examples) :=
  ⟨⟨by decide, by decide, by decide⟩,
    claim_C2_example_without_code_block docInit {title := "M"} "@example Basic Use"
      "Basic Use" [""] (by decide) (by decide) (by decide)⟩

/-- C3: evidence against the claim that a duplicate `@defgroup` aborts the
section leaving the existing entity unchanged. `FlyDocParseModule` emits the
`duplicate` warning but then runs its tail unconditionally: on this input the
pre-existing module `Foo` (a non-stub, it already has text) has its text
overwritten by the new section's body and becomes the current module. (On the
invalid-identifier paths the C code goes further and dereferences an
uninitialized module pointer.) -/
theorem claim_C3_duplicate_module_mutates_existing :
    (let d0 : Doc := {modList := [{sec := {title := "Foo", text := some ["Old text."]}}]}
     let d1 := parseHdr d0 ["@defgroup Foo Again", "", "New text."] none
     d1.warns = [Warn.duplicate (some "Foo")]
     ∧ lookupMod d1.modList "Foo" =
         some {sec := {title := "Foo", text := some ["New text."]}}
     ∧ (lookupMod d1.modList "Foo").map (fun m => m.sec.text) ≠
         some (some ["Old text."])
     ∧ d1.curMod = some (false, "Foo")) := by
  decide

/-- C4: the main page is a singleton. When one exists, a further `@mainpage`
section emits exactly one `duplicate` warning and changes nothing else (the
whole state, main page included, is the old one plus that warning); when none
exists, the first `@mainpage` section creates it. Holds for either state of
the end-of-span boundary flag `endBlank`. -/
theorem claim_C4_mainpage_singleton (d : Doc) (ls : List String) (endBlank : Bool) :
    (∀ mp, d.mainPage = some mp →
      parseMainPage d ls endBlank = warn d (Warn.duplicate (some "mainpage")))
    ∧ (d.mainPage = none → ∀ l0 body, ls = l0 :: body →
        (parseMainPage d ls endBlank).mainPage.isSome = true) := by
  constructor
  · intro mp hmp
    unfold parseMainPage
    rw [hmp]
  · intro hnone l0 body hls
    subst hls
    unfold parseMainPage
    rw [hnone]
    dsimp only
    split
    · rfl
    · rfl

/-- Witness for C4: a second `@mainpage` on a state that has one, and a first
`@mainpage` on the empty state. -/
theorem claim_C4_mainpage_singleton_witness :
    (({mainPage := some {title := "T"}} : Doc).mainPage = some {title := "T"}
      ∧ parseMainPage {mainPage := some {title := "T"}} ["@mainpage X"] true =
          warn {mainPage := some {title := "T"}} (Warn.duplicate (some "mainpage")))
    ∧ ((docInit.mainPage = none)
      ∧ (parseMainPage docInit ["@mainpage X"] true).mainPage.isSome = true) :=
  ⟨⟨by decide,
    (claim_C4_mainpage_singleton {mainPage := some {title := "T"}} ["@mainpage X"] true).1
      {title := "T"} (by decide)⟩,
   ⟨by decide,
    (claim_C4_mainpage_singleton docInit ["@mainpage X"] true).2 (by decide)
      "@mainpage X" [] (by decide)⟩⟩

/-- C5: the duplicate/namespace check is case- and extension-insensitive and
advisory only. Generally, `FlyDocDupCheck` never changes any entity list or
the main page. Concretely, a run creating module `Foo`, markdown document
`foo.md` and class `FOO` warns `duplicate` exactly for the second and third
occurrence while all three entities remain distinct members of their lists. -/
theorem claim_C5_dup_check_advisory :
    (∀ dd t hp, (dupCheck dd t hp).modList = dd.modList
      ∧ (dupCheck dd t hp).classList = dd.classList
      ∧ (dupCheck dd t hp).mdList = dd.mdList
      ∧ (dupCheck dd t hp).mainPage = dd.mainPage)
    ∧ (let d3 := parseHdr (parseMarkdownFile (parseHdr docInit
          ["@defgroup Foo Module Foo"] none) "foo.md" ["Some text"])
          ["@class FOO Class FOO"] none
       d3.warns = [Warn.duplicate (some "foo"), Warn.duplicate (some "FOO")]
       ∧ d3.modList.map (fun m => m.sec.title) = ["Foo"]
       ∧ d3.classList.map (fun m => m.sec.title) = ["FOO"]
       ∧ d3.mdList.map (fun md => md.sec.title) = ["foo.md"]) := by
  constructor
  · intro dd t hp
    exact ⟨(dupCheck_entities dd t hp).2.1, (dupCheck_entities dd t hp).2.2.1,
      (dupCheck_entities dd t hp).2.2.2.1, (dupCheck_entities dd t hp).1⟩
  · decide

/-- C8: with a total object count of zero, the end of `main` emits exactly the
`no objects` warning, creates no output files even when a build was requested
(`fNoBuild` arbitrary, in particular `false`), and exits with status 1. -/
theorem claim_C8_no_objects_no_output (d : Doc) (fNoBuild : Bool)
    (buildWarns : List Warn) (buildOk : Bool) (h : numObjects d = 0) :
    mainFinish d fNoBuild buildWarns buildOk = (warn d Warn.noObjects, false, 1) := by
  unfold mainFinish
  rw [if_pos (by simp [h])]
  dsimp only
  unfold exitCode
  rw [if_neg (by simp [warn])]

/-- Witness for C8 at the empty run with a build requested. -/
theorem claim_C8_no_objects_no_output_witness :
    numObjects docInit = 0
    ∧ mainFinish docInit false [] true = (warn docInit Warn.noObjects, false, 1) :=
  ⟨by decide, claim_C8_no_objects_no_output docInit false [] true (by decide)⟩

theorem exitCode_eq_one_iff (l : List Warn) : exitCode l.length = 1 ↔ l ≠ [] := by
  unfold exitCode
  cases l <;> simp

/-- C9: the exit status of a completed run is 1 exactly when the final warning
counter is nonzero, and it does not depend on whether the build step succeeded
(`buildOk`), the branch taken, or any output being produced. -/
theorem claim_C9_exit_status_iff_warnings (d : Doc) (fNoBuild : Bool)
    (buildWarns : List Warn) (buildOk : Bool) :
    ((mainFinish d fNoBuild buildWarns buildOk).2.2 = 1 ↔
      (mainFinish d fNoBuild buildWarns buildOk).1.warns ≠ [])
    ∧ mainFinish d fNoBuild buildWarns buildOk = mainFinish d fNoBuild buildWarns true := by
  constructor
  · unfold mainFinish
    split
    · dsimp only
      exact exitCode_eq_one_iff _
    · split
      · dsimp only
        exact exitCode_eq_one_iff _
      · dsimp only
        exact exitCode_eq_one_iff _
  · rfl

theorem findModRef_docModMap {d : Doc} {r : Bool × String} {f : Module → Module}
    (hf : ∀ m, (f m).sec.title = m.sec.title) :
    findModRef (docModMap d r f) r = (findModRef d r).map f := by
  unfold findModRef docModMap
  obtain ⟨b, t⟩ := r
  cases b <;> dsimp only <;> exact lookupMod_modMap hf

theorem findModRef_parseTextFx (d : Doc) (ls : List String) (r : Bool × String) :
    findModRef (parseTextFx d ls) r = findModRef d r := by
  unfold findModRef
  obtain ⟨b, t⟩ := r
  cases b <;> simp [parseTextFx_modList, parseTextFx_classList]

theorem findModRef_congr {a b : Doc} (h1 : a.modList = b.modList)
    (h2 : a.classList = b.classList) (r : Bool × String) :
    findModRef a r = findModRef b r := by
  unfold findModRef
  obtain ⟨bb, t⟩ := r
  cases bb <;> simp [h1, h2]

/-- C6: a comment header free of section-opening keyword lines (grouping,
`@param`/`@return`, style and unknown keyword lines are all allowed) that has
a non-blank non-keyword line, parsed from source with a valid prototype
adjacent, when a current module is set once the header's grouping lines are
applied (`groupWalk` runs in the header walk and again in the pre-scan), adds
exactly one Function to that module's function list: its name is extracted
from the prototype, its brief is the header's first non-blank, non-keyword
line, its prototype collects the adjacent prototype text plus the
proto-keyword lines after the brief, and the module is otherwise changed only
by running the text scan over the lines after the brief. -/
theorem claim_C6_bare_comment_function (d : Doc) (hdr : List String) (c : HdrCtx)
    (r : Bool × String) (m : Module) (i : Nat) (bl : String) (fname : String)
    (hNoSec : ∀ l ∈ hdr, isSectionLine l = false)
    (hBrief : firstBriefIdx hdr = some (i, bl))
    (hCur : (groupWalk (groupWalk d hdr) hdr).curMod = some r)
    (hMod : findModRef (groupWalk (groupWalk d hdr) hdr) r = some m)
    (hProto : protoName c.protoCandidate = some fname) :
    findModRef (parseHdr d hdr (some c)) r =
      some ({m with
              sec := scanSecGo 0 m.sec (hdr.drop (i + 1)),
              funcs := listAddFunc m.funcs
                (Func.mk fname (some bl)
                  (c.protoCandidate :: (hdr.drop (i + 1)).filter isProtoLine)
                  (materialize (hdr.drop (i + 1)))) d.fSort}) := by
  have hGW : groupWalk (groupWalk {d with nDocComments := d.nDocComments + 1} hdr) hdr
      = {groupWalk (groupWalk d hdr) hdr with nDocComments := d.nDocComments + 1} := by
    rw [groupWalk_nDoc hdr d (d.nDocComments + 1),
        groupWalk_nDoc hdr (groupWalk d hdr) (d.nDocComments + 1)]
  unfold parseHdr
  rw [hdrLoopGo_noSection hdr c _ false hNoSec]
  rw [if_pos (by rw [any_text_of_firstBriefIdx hBrief]; simp)]
  unfold parseFunction
  dsimp only
  rw [prescanGo_fst, prescanGo_snd]
  dsimp only
  rw [hBrief]
  simp only [Option.map_some', Nat.zero_add]
  rw [hGW]
  dsimp only
  rw [hCur]
  dsimp only
  rw [hProto]
  dsimp only
  rw [findModRef_parseTextFx, findModRef_docModMap
    (fun mm => by dsimp only; rw [scanSecGo_title])]
  rw [show findModRef {groupWalk (groupWalk d hdr) hdr with
                         curMod := some r,
                         nDocComments := d.nDocComments + 1} r
      = findModRef (groupWalk (groupWalk d hdr) hdr) r from findModRef_congr rfl rfl r]
  rw [hMod]
  simp only [Option.map_some']
  rw [groupWalk_fSort hdr (groupWalk d hdr), groupWalk_fSort hdr d]

/-- Witness for C6: a header holding an `@ingroup` line, an `@param` line, the
brief and an `@return` line, over the empty run, with
`double area(double r)` as the adjacent prototype: the grouping line creates
and selects the stub module `math`, the brief skips the keyword lines, and
the `@return` line is collected into the prototype. -/
theorem claim_C6_bare_comment_function_witness :
    ((∀ l ∈ ["@ingroup math", "@param r radius", "calculate area of a circle",
        "@return area"], isSectionLine l = false)
      ∧ firstBriefIdx ["@ingroup math", "@param r radius",
          "calculate area of a circle", "@return area"] =
          some (2, "calculate area of a circle")
      ∧ (groupWalk (groupWalk docInit ["@ingroup math", "@param r radius",
          "calculate area of a circle", "@return area"]) ["@ingroup math",
          "@param r radius", "calculate area of a circle", "@return area"]).curMod =
          some (false, "math")
      ∧ findModRef (groupWalk (groupWalk docInit ["@ingroup math", "@param r radius",
          "calculate area of a circle", "@return area"]) ["@ingroup math",
          "@param r radius", "calculate area of a circle", "@return area"])
          (false, "math") = some (modNew "math")
      ∧ protoName (HdrCtx.mk false "double area(double r)").protoCandidate =
          some "area")
    ∧ findModRef (parseHdr docInit ["@ingroup math", "@param r radius",
        "calculate area of a circle", "@return area"]
        (some (HdrCtx.mk false "double area(double r)"))) (false, "math") =
      some ({modNew "math" with
              sec := scanSecGo 0 (modNew "math").sec
                (["@ingroup math", "@param r radius", "calculate area of a circle",
                  "@return area"].drop (2 + 1)),
              funcs := listAddFunc (modNew "math").funcs
                (Func.mk "area" (some "calculate area of a circle")
                  ("double area(double r)" ::
                    (["@ingroup math", "@param r radius", "calculate area of a circle",
                      "@return area"].drop (2 + 1)).filter isProtoLine)
                  (materialize (["@ingroup math", "@param r radius",
                    "calculate area of a circle", "@return area"].drop (2 + 1))))
                docInit.fSort}) :=
  ⟨⟨by decide, by decide, by decide, by decide, by decide⟩,
    claim_C6_bare_comment_function docInit
      ["@ingroup math", "@param r radius", "calculate area of a circle", "@return area"]
      (HdrCtx.mk false "double area(double r)") (false, "math") (modNew "math")
      2 "calculate area of a circle" "area"
      (by decide) (by decide) (by decide) (by decide) (by decide)⟩

/-- C7: a markdown file whose first line is a section-opening keyword is
handed whole to the comment-header parser (with no raw-header context), and no
markdown document is created for it: the document list after the call is the
one from before. -/
theorem claim_C7_markdown_first_line_section (d : Doc) (path : String)
    (l0 : String) (rest : List String) (hsec : isSectionLine l0 = true) :
    parseMarkdownFile d path (l0 :: rest) = parseHdr d (l0 :: rest) none
    ∧ (parseMarkdownFile d path (l0 :: rest)).mdList = d.mdList := by
  have hTop : parseMarkdownFile d path (l0 :: rest) = parseHdr d (l0 :: rest) none := by
    unfold parseMarkdownFile
    split
    · rfl
    · next h => exact absurd hsec h
  exact ⟨hTop, by rw [hTop]; exact parseHdr_mdList ..⟩

/-- Witness for C7: a markdown file starting with `@mainpage T`. -/
theorem claim_C7_markdown_first_line_section_witness :
    isSectionLine "@mainpage T" = true
    ∧ (parseMarkdownFile docInit "x.md" ("@mainpage T" :: ["hello"]) =
        parseHdr docInit ("@mainpage T" :: ["hello"]) none
      ∧ (parseMarkdownFile docInit "x.md" ("@mainpage T" :: ["hello"])).mdList =
          docInit.mdList) :=
  ⟨by decide,
    claim_C7_markdown_first_line_section docInit "x.md" "@mainpage T" ["hello"]
      (by decide)⟩

theorem mdLoop_step_style {x : String} {k : Kw} {arg : String}
    (hkw : isKeyword x = some (k, arg)) (hk : k ≠ Kw.kExample)
    (d : Doc) (s : Sec) (hs : List String) (g : Bool) (L : List String) :
    mdLoopGo 0 d s hs g (x :: L) =
      mdLoopGo 0 (mdStyleFx d k arg) (mdStyleSec k arg s) hs g L := by
  conv_lhs => unfold mdLoopGo
  rw [hkw]
  cases k <;> first | exact absurd rfl hk | rfl

theorem mdLoop_step_exampleBlank {x : String}
    (hkw : isKeyword x = some (Kw.kExample, argNext x)) (hT : exampleTitle x = none)
    (d : Doc) (s : Sec) (hs : List String) (g : Bool) (L : List String) :
    mdLoopGo 0 d s hs g (x :: L) = (warn d Warn.synErr, s, hs, g) := by
  conv_lhs => unfold mdLoopGo
  rw [hkw]
  dsimp only
  rw [hT]

theorem mdLoop_step_none {x : String} (hkw : isKeyword x = none)
    (hcb : isCodeBlkStart x = false)
    (d : Doc) (s : Sec) (hs : List String) (g : Bool) (L : List String) :
    mdLoopGo 0 d s hs g (x :: L) =
      (if isHeading x then
        mdLoopGo 0 d (if g then s else {s with subtitle := some (headingText x)})
          (hs ++ [headingText x]) true L
       else mdLoopGo 0 d s hs g L) := by
  conv_lhs => unfold mdLoopGo
  rw [hkw]
  dsimp only
  rw [hcb]
  simp only [Bool.false_eq_true, if_false]

theorem mdLoopGo_append {pre : List String} (rest : List String) (d : Doc) (s : Sec)
    (hs : List String) (g : Bool)
    (hPre : ∀ x ∈ pre, ((isKeyword x).map Prod.fst ≠ some Kw.kExample)
      ∧ isCodeBlkStart x = false) :
    mdLoopGo 0 d s hs g (pre ++ rest) =
      mdLoopGo 0 (mdLoopGo 0 d s hs g pre).1 (mdLoopGo 0 d s hs g pre).2.1
        (mdLoopGo 0 d s hs g pre).2.2.1 (mdLoopGo 0 d s hs g pre).2.2.2 rest := by
  induction pre generalizing d s hs g with
  | nil => rfl
  | cons x pre ih =>
    obtain ⟨hk, hcb⟩ := hPre x (List.mem_cons_self x pre)
    have hPre' := fun a ha => hPre a (List.mem_cons_of_mem x ha)
    rw [List.cons_append]
    cases hkw : isKeyword x with
    | some p =>
      obtain ⟨k, arg⟩ := p
      have hkne : k ≠ Kw.kExample := by
        intro hcon
        subst hcon
        exact hk (by rw [hkw]; rfl)
      rw [mdLoop_step_style hkw hkne, mdLoop_step_style hkw hkne]
      exact ih _ _ _ _ hPre'
    | none =>
      rw [mdLoop_step_none hkw hcb, mdLoop_step_none hkw hcb]
      split
      · exact ih _ _ _ _ hPre'
      · exact ih _ _ _ _ hPre'

/-- C10: in the markdown file line scan, an `@example` line with a blank title
emits one `syntax error` warning and ends the scan for the rest of the file:
the resulting document state, section, heading outline and subtitle flag are
exactly those accumulated over the lines before it, whatever heading, example
or style lines follow it. (The lines before it must themselves reach the line:
the hypothesis forbids earlier `@example` lines and code-block openings.) -/
theorem claim_C10_blank_example_stops_markdown_scan (d : Doc) (s : Sec)
    (hs : List String) (g : Bool) (pre post : List String) (l : String)
    (hK : isKeyword l = some (Kw.kExample, argNext l))
    (hT : exampleTitle l = none)
    (hPre : ∀ x ∈ pre, ((isKeyword x).map Prod.fst ≠ some Kw.kExample)
      ∧ isCodeBlkStart x = false) :
    mdLoopGo 0 d s hs g (pre ++ l :: post) =
      (warn (mdLoopGo 0 d s hs g pre).1 Warn.synErr, (mdLoopGo 0 d s hs g pre).2.1,
       (mdLoopGo 0 d s hs g pre).2.2.1, (mdLoopGo 0 d s hs g pre).2.2.2) := by
  rw [mdLoopGo_append (l :: post) d s hs g hPre]
  exact mdLoop_step_exampleBlank hK hT _ _ _ _ _

/-- Witness for C10: a heading, then a bare `@example`, then a further heading
and a style keyword that are never recorded. -/
theorem claim_C10_blank_example_stops_markdown_scan_witness :
    (isKeyword "@example" = some (Kw.kExample, argNext "@example")
      ∧ exampleTitle "@example" = none
      ∧ (∀ x ∈ ["## Head1"], ((isKeyword x).map Prod.fst ≠ some Kw.kExample)
          ∧ isCodeBlkStart x = false))
    ∧ mdLoopGo 0 docInit {title := "x.md"} [] false
        (["## Head1"] ++ "@example" :: ["## Head2", "@version 9"]) =
      (warn (mdLoopGo 0 docInit {title := "x.md"} [] false ["## Head1"]).1 Warn.synErr,
       (mdLoopGo 0 docInit {title := "x.md"} [] false ["## Head1"]).2.1,
       (mdLoopGo 0 docInit {title := "x.md"} [] false ["## Head1"]).2.2.1,
       (mdLoopGo 0 docInit {title := "x.md"} [] false ["## Head1"]).2.2.2) :=
  ⟨⟨by decide, by decide, by decide⟩,
    claim_C10_blank_example_stops_markdown_scan docInit {title := "x.md"} [] false
      ["## Head1"] ["## Head2", "@version 9"] "@example"
      (by decide) (by decide) (by decide)⟩

end FlyDoc
